import Mathlib

/-!
# Echolocator: recording-buffer analysis

A shallow embedding of `src/main.c` (the capture callback, the session state
machine and `analyze_recording`) together with the properties proved about it.

Conventions of the embedding.

* `Sint16` values are `Int`s; a store into a `Sint16` variable goes through
  `wrap16` (two's complement wrap-around).
* `float` values are rationals.  Every run-time `float` operation is the exact
  operation followed by the rounding function `rnd : ℚ → ℚ` of the platform,
  which is a parameter of the embedding.  `FloatRounding rnd` states the two
  facts about `rnd` that some proofs use (monotone, exact on small integers);
  they hold of exact arithmetic `id` and of the binary32 rounding `round32`.
* `gRecordingBuffer` is a byte memory `Nat → Nat`; the analysis reads it through
  the `Sint16` view `sampleAt`.
* Loops are functions with fuel; the fuel handed to the echo scan is shown to
  be enough (`scan_loop_done`).
-/

namespace Echolocator

/-! ## Configuration constants -/

/-- `#define AUDIO_FREQ 44100`. -/
def AUDIO_FREQ : Nat := 44100

/-- `#define RECORDING_SECONDS 1`. -/
def RECORDING_SECONDS : Nat := 1

/-- `sizeof(Sint16)`. -/
def SIZEOF_SINT16 : Nat := 2

/-- `#define RECORDING_BUFFER_SIZE (AUDIO_FREQ * RECORDING_SECONDS * sizeof(Sint16))`,
a byte count. -/
def RECORDING_BUFFER_SIZE : Nat := AUDIO_FREQ * RECORDING_SECONDS * SIZEOF_SINT16

/-- `#define BEEP_DURATION_MS 50`. -/
def BEEP_DURATION_MS : Nat := 50

/-- `#define SPEED_OF_SOUND 343.0f`. -/
def SPEED_OF_SOUND : ℚ := 343

/-- Number of slots of `AudioPeak gDetectedPeaks[20]`, also the literal bound of
the echo loop (`gPeakCount < 20`). -/
def MAX_PEAKS : Nat := 20

/-! ## Machine arithmetic -/

/-- Conversion of an integer to `Sint16` (two's complement wrap-around). -/
def wrap16 (x : Int) : Int := (x + 32768) % 65536 - 32768

/-- Conversion of an integer to `int` (32 bits, two's complement). -/
def wrap32 (x : Int) : Int := (x + 2147483648) % 4294967296 - 2147483648

/-- Conversion of an integer to `size_t` (64 bits, unsigned). -/
def toSizeT (x : Int) : Int := x % 18446744073709551616

/-- Conversion of a floating value to an integer type: truncation toward zero. -/
def truncQ (q : ℚ) : Int := if 0 ≤ q then ⌊q⌋ else ⌈q⌉

/-- The facts about the rounding of `float` operations that the proofs rely on:
rounding is monotone and integers of magnitude at most `2^24` are representable. -/
def FloatRounding (rnd : ℚ → ℚ) : Prop :=
  Monotone rnd ∧ ∀ k : Int, |k| ≤ 16777216 → rnd (k : ℚ) = (k : ℚ)

/-- Rounding to the nearest integer, ties to even. -/
def roundEven (q : ℚ) : Int :=
  if Int.fract q < 1 / 2 then ⌊q⌋
  else if 1 / 2 < Int.fract q then ⌊q⌋ + 1
  else if ⌊q⌋ % 2 = 0 then ⌊q⌋ else ⌊q⌋ + 1

/-- The spacing of binary32 values at magnitude `q`: a 24-bit significand and a
least exponent of `-126`. -/
def ulp32 (q : ℚ) : ℚ := (2 : ℚ) ^ (max (Int.log 2 q) (-126) - 23)

/-- Rounding of a non-negative rational to binary32. -/
def round32_mag (q : ℚ) : ℚ := (roundEven (q / ulp32 q) : ℚ) * ulp32 q

/-- Rounding to IEEE 754 binary32, nearest with ties to even, for magnitudes
below the overflow threshold. -/
def round32 (q : ℚ) : ℚ := if 0 ≤ q then round32_mag q else -round32_mag (-q)

/-- `(int)((BEEP_DURATION_MS * 1.5 / 1000.0f) * AUDIO_FREQ)`: the length of the
dead zone after the direct pulse.  The expression has constant operands and is
evaluated in `double`, where it delivers the exact value `3307.5`; the cast
truncates it. -/
def DEAD_ZONE : Nat :=
  (truncQ ((((BEEP_DURATION_MS : ℚ) * (3 / 2)) / 1000) * (AUDIO_FREQ : ℚ))).toNat

/-- `(int)((BEEP_DURATION_MS / 1000.0f) * AUDIO_FREQ)`: the cooldown skip after an
admitted echo.  The expression has constant operands and is evaluated in
`float`, where it delivers the exact value `2205`. -/
def COOLDOWN : Nat :=
  (truncQ (((BEEP_DURATION_MS : ℚ) / 1000) * (AUDIO_FREQ : ℚ))).toNat

/-! ## Data model -/

/-- `typedef enum { ... } AppState`. -/
inductive AppState where
  | STATE_IDLE
  | STATE_RECORDING
  | STATE_ANALYZING
  | STATE_DONE
  deriving DecidableEq, Repr

/-- `typedef struct { int index; Sint16 amplitude; float time_s; float distance_m; } AudioPeak`.
`index` only ever receives loop indices, which are non-negative, so it is a `Nat`. -/
structure AudioPeak where
  index : Nat
  amplitude : Int
  time_s : ℚ
  distance_m : ℚ
  deriving DecidableEq

/-- The all-zero `AudioPeak` of a zero-initialised global. -/
def AudioPeak.zero : AudioPeak := ⟨0, 0, 0, 0⟩

/-- The global variables of the program that the analysed code reads or writes. -/
structure Globals where
  gState : AppState
  gRecordingBuffer : Nat → Nat
  gBufferPosition : Int
  gDetectedPeaks : Nat → AudioPeak
  gPeakCount : Nat
  gDetectionThreshold : ℚ

/-- The `Sint16` at sample position `i` of a byte memory (native byte order of the
little-endian targets of the program: low byte first). -/
def sampleAt (mem : Nat → Nat) (i : Nat) : Int :=
  wrap16 (((mem (2 * i) % 256 + 256 * (mem (2 * i + 1) % 256) : Nat) : Int))

/-! ## analyze_recording -/

/-- The first loop of `analyze_recording` (lines 212-219): the scan for the
largest absolute sample.  `abs` is computed in `int`, the store into the
`Sint16 max_amplitude` wraps.  Result: `(max_amplitude, max_amp_index)`. -/
def find_max (buf : Nat → Int) (total_samples : Nat) : Int × Nat :=
  (List.range total_samples).foldl
    (fun st i => if |buf i| > st.1 then (wrap16 |buf i|, i) else st) (0, 0)

/-- `Sint16 threshold_val = max_amplitude * gDetectionThreshold;` (line 228). -/
def threshold_val (rnd : ℚ → ℚ) (max_amplitude : Int) (gDetectionThreshold : ℚ) : Int :=
  wrap16 (truncQ (rnd ((max_amplitude : ℚ) * gDetectionThreshold)))

/-- `int search_start_index = max_amp_index + (int)(...)` (line 229). -/
def search_start_index (max_amp_index : Nat) : Nat := max_amp_index + DEAD_ZONE

/-- The admission test of the echo loop (lines 233-235).  The loop only runs at
`i ≥ DEAD_ZONE ≥ 1`, so the `i - 1` of the natural numbers is the `i - 1` of the
program. -/
def is_echo_peak (buf : Nat → Int) (thr : Int) (i : Nat) : Prop :=
  |buf i| > thr ∧ |buf i| > |buf (i - 1)| ∧ |buf i| > |buf (i + 1)|

instance (buf : Nat → Int) (thr : Int) (i : Nat) : Decidable (is_echo_peak buf thr i) := by
  unfold is_echo_peak; infer_instance

/-- The variables of the echo loop: the loop index, the peak array and `gPeakCount`. -/
structure ScanState where
  i : Nat
  peaks : Nat → AudioPeak
  count : Nat

/-- The loop condition `i < total_samples - 1 && gPeakCount < 20` (line 231). -/
def scan_guard (total_samples : Nat) (st : ScanState) : Prop :=
  (st.i : Int) < (total_samples : Int) - 1 ∧ st.count < MAX_PEAKS

instance (total_samples : Nat) (st : ScanState) : Decidable (scan_guard total_samples st) := by
  unfold scan_guard; infer_instance

/-- The writes of lines 237-244 through `p = &gDetectedPeaks[gPeakCount]`, in
program order: `index` and `amplitude` first, then `time_delta` is computed
from the array as it then is. -/
def write_peak (rnd : ℚ → ℚ) (buf : Nat → Int) (peaks : Nat → AudioPeak) (count i : Nat) :
    Nat → AudioPeak :=
  let peaks1 := Function.update peaks count
    { peaks count with index := i, amplitude := wrap16 |buf i| }
  let time_delta : ℚ :=
    rnd (rnd ((((peaks1 count).index : Int) - ((peaks1 0).index : Int) : Int) : ℚ) /
      (AUDIO_FREQ : ℚ))
  Function.update peaks1 count
    { peaks1 count with
      distance_m := rnd (rnd (time_delta * SPEED_OF_SOUND) / 2)
      time_s := time_delta }

/-- One iteration of the echo loop (lines 232-250) followed by the `++i` of the
loop header. -/
def scan_body (rnd : ℚ → ℚ) (buf : Nat → Int) (thr : Int) (st : ScanState) : ScanState :=
  if is_echo_peak buf thr st.i then
    { i := st.i + COOLDOWN + 1
      peaks := write_peak rnd buf st.peaks st.count st.i
      count := st.count + 1 }
  else
    { st with i := st.i + 1 }

/-- The echo loop (line 231), with fuel. -/
def scan_loop (rnd : ℚ → ℚ) (buf : Nat → Int) (total_samples : Nat) (thr : Int) :
    Nat → ScanState → ScanState
  | 0, st => st
  | fuel + 1, st =>
    if scan_guard total_samples st then
      scan_loop rnd buf total_samples thr fuel (scan_body rnd buf thr st)
    else st

/-- The loop indices at which the body of the echo loop runs, in order: the
positions `i` whose neighbourhood `i-1, i, i+1` the loop may read. -/
def scan_visited (rnd : ℚ → ℚ) (buf : Nat → Int) (total_samples : Nat) (thr : Int) :
    Nat → ScanState → List Nat
  | 0, _ => []
  | fuel + 1, st =>
    if scan_guard total_samples st then
      st.i :: scan_visited rnd buf total_samples thr fuel (scan_body rnd buf thr st)
    else []

/-- What `analyze_recording` leaves in `gDetectedPeaks` and `gPeakCount`. -/
structure PeakList where
  gDetectedPeaks : Nat → AudioPeak
  gPeakCount : Nat

/-- The start state of the echo loop: Peak #0 written (lines 223-225), the loop
index at `search_start_index`. -/
def scan_init (buf : Nat → Int) (total_samples : Nat) (peaks : Nat → AudioPeak) : ScanState :=
  { i := search_start_index (find_max buf total_samples).2
    peaks := Function.update peaks 0
      { peaks 0 with
        index := (find_max buf total_samples).2
        amplitude := (find_max buf total_samples).1 }
    count := 1 }

/-- `analyze_recording` (lines 206-252) on `total_samples` valid samples `buf`,
threshold `gDetectionThreshold` and the previous content `peaks` of the peak
array.  The echo loop gets `total_samples` units of fuel. -/
def analyze_recording (rnd : ℚ → ℚ) (buf : Nat → Int) (total_samples : Nat)
    (gDetectionThreshold : ℚ) (peaks : Nat → AudioPeak) : PeakList :=
  if total_samples = 0 then ⟨peaks, 0⟩
  else if (find_max buf total_samples).1 = 0 then ⟨peaks, 0⟩
  else
    let st := scan_loop rnd buf total_samples
      (threshold_val rnd (find_max buf total_samples).1 gDetectionThreshold)
      total_samples (scan_init buf total_samples peaks)
    ⟨st.peaks, st.count⟩

/-- The loop indices visited by the echo loop of `analyze_recording`. -/
def analyze_visited (rnd : ℚ → ℚ) (buf : Nat → Int) (total_samples : Nat)
    (gDetectionThreshold : ℚ) (peaks : Nat → AudioPeak) : List Nat :=
  if total_samples = 0 then []
  else if (find_max buf total_samples).1 = 0 then []
  else
    scan_visited rnd buf total_samples
      (threshold_val rnd (find_max buf total_samples).1 gDetectionThreshold)
      total_samples (scan_init buf total_samples peaks)

/-- `int total_samples = gBufferPosition / (int)sizeof(Sint16);` (line 208).  A
negative quotient runs no loop and returns at line 220 like `0` does, so it is
clamped to `0`. -/
def total_samples_of (gBufferPosition : Int) : Nat :=
  (Int.tdiv gBufferPosition (SIZEOF_SINT16 : Int)).toNat

/-- `analyze_recording` on the globals. -/
def run_analyze_recording (rnd : ℚ → ℚ) (g : Globals) : Globals :=
  let r := analyze_recording rnd (sampleAt g.gRecordingBuffer)
    (total_samples_of g.gBufferPosition) g.gDetectionThreshold g.gDetectedPeaks
  { g with gDetectedPeaks := r.gDetectedPeaks, gPeakCount := r.gPeakCount }

/-! ## Session state machine and capture callback -/

/-- `memset(gRecordingBuffer, 0, RECORDING_BUFFER_SIZE)`. -/
def memset_zero (mem : Nat → Nat) (len : Nat) : Nat → Nat :=
  fun a => if a < len then 0 else mem a

/-- `memcpy(dst + off, stream, len)` on byte memories. -/
def memcpy (mem : Nat → Nat) (off : Nat) (stream : Nat → Nat) (len : Nat) : Nat → Nat :=
  fun a => if off ≤ a ∧ a < off + len then stream (a - off) else mem a

/-- `start_test` (lines 196-204); the two device calls have no effect on the
globals. -/
def start_test (g : Globals) : Globals :=
  { g with
    gState := AppState.STATE_RECORDING
    gRecordingBuffer := memset_zero g.gRecordingBuffer RECORDING_BUFFER_SIZE
    gBufferPosition := 0
    gPeakCount := 0 }

/-- The key presses `handle_input` distinguishes. -/
inductive Key where
  | SDLK_SPACE
  | SDLK_UP
  | SDLK_DOWN
  | other
  deriving DecidableEq, Repr

/-- `handle_input` (lines 110-134) on a key-down event.  The literals `0.01f`
and `1.0f` are `rnd (1/100)` and `1`. -/
def handle_input (rnd : ℚ → ℚ) (g : Globals) : Key → Globals
  | Key.SDLK_SPACE =>
    if g.gState = AppState.STATE_IDLE ∨ g.gState = AppState.STATE_DONE then start_test g else g
  | Key.SDLK_UP =>
    let t := rnd (g.gDetectionThreshold + rnd (1 / 100))
    let g1 := { g with gDetectionThreshold := if t > 1 then 1 else t }
    if g1.gState = AppState.STATE_DONE then run_analyze_recording rnd g1 else g1
  | Key.SDLK_DOWN =>
    let t := rnd (g.gDetectionThreshold - rnd (1 / 100))
    let g1 := { g with gDetectionThreshold := if t < rnd (1 / 100) then rnd (1 / 100) else t }
    if g1.gState = AppState.STATE_DONE then run_analyze_recording rnd g1 else g1
  | Key.other => g

/-- `audio_recording_callback` (lines 343-350).  The comparison, the subtraction
and both arms of the conditional are in `size_t`, as `RECORDING_BUFFER_SIZE` has
that type, and the result is converted to the `int copy_len`; the destination
is the `Sint16` pointer `gRecordingBuffer + gBufferPosition / 2`. -/
def audio_recording_callback (g : Globals) (stream : Nat → Nat) (len : Int) : Globals :=
  if g.gState ≠ AppState.STATE_RECORDING then g
  else
    let room := toSizeT ((RECORDING_BUFFER_SIZE : Int) - toSizeT g.gBufferPosition)
    let copy_len := wrap32 (if toSizeT len > room then room else toSizeT len)
    if copy_len > 0 then
      { g with
        gRecordingBuffer := memcpy g.gRecordingBuffer
          (SIZEOF_SINT16 * (toSizeT g.gBufferPosition / (SIZEOF_SINT16 : Int)).toNat)
          stream copy_len.toNat
        gBufferPosition := wrap32 (g.gBufferPosition + copy_len) }
    else g

/-- The check of the main loop (lines 94-99), run once per iteration. -/
def main_loop_tick (rnd : ℚ → ℚ) (g : Globals) : Globals :=
  if g.gState = AppState.STATE_RECORDING ∧
      toSizeT g.gBufferPosition ≥ (RECORDING_BUFFER_SIZE : Int) then
    { run_analyze_recording rnd { g with gState := AppState.STATE_ANALYZING } with
      gState := AppState.STATE_DONE }
  else g

/-- What can happen to the globals between two renderings. -/
inductive Event where
  | key (k : Key)
  | audio (stream : Nat → Nat) (len : Int)
  | tick

/-- The effect of one event. -/
def step (rnd : ℚ → ℚ) (g : Globals) : Event → Globals
  | Event.key k => handle_input rnd g k
  | Event.audio stream len => audio_recording_callback g stream len
  | Event.tick => main_loop_tick rnd g

/-- The globals at program start: the statics are zero-initialised (lines 54-61),
the freshly allocated buffer has arbitrary content `mem`. -/
def initial (rnd : ℚ → ℚ) (mem : Nat → Nat) : Globals :=
  { gState := AppState.STATE_IDLE
    gRecordingBuffer := mem
    gBufferPosition := 0
    gDetectedPeaks := fun _ => AudioPeak.zero
    gPeakCount := 0
    gDetectionThreshold := rnd (15 / 100) }

/-- The states the program can be in. -/
inductive Reachable (rnd : ℚ → ℚ) : Globals → Prop where
  | init (mem : Nat → Nat) : Reachable rnd (initial rnd mem)
  | next (g : Globals) (e : Event) : Reachable rnd g → Reachable rnd (step rnd g e)

/-! ## Invariants and test data -/

/-- What holds of the loop variables throughout the echo loop started in `st0`:
the count stays within `1..20`, slot `0` and the slots from `count` on are
untouched, and every slot `1 ≤ k < count` holds an admitted position together
with the values computed for it. -/
def ScanInv (rnd : ℚ → ℚ) (buf : Nat → Int) (n : Nat) (thr : Int) (st0 st : ScanState) :
    Prop :=
  1 ≤ st.count ∧ st.count ≤ MAX_PEAKS ∧ st0.i ≤ st.i ∧
  (∀ k, k = 0 ∨ st.count ≤ k → st.peaks k = st0.peaks k) ∧
  (∀ k, 1 ≤ k → k < st.count →
    st0.i ≤ (st.peaks k).index ∧ (st.peaks k).index + 1 < n ∧
    (st.peaks k).index < st.i ∧
    is_echo_peak buf thr (st.peaks k).index ∧
    (st.peaks k).amplitude = wrap16 |buf (st.peaks k).index| ∧
    (st.peaks k).time_s =
      rnd (rnd (((((st.peaks k).index : Int) - ((st0.peaks 0).index : Int) : Int) : ℚ)) /
        (AUDIO_FREQ : ℚ)) ∧
    (st.peaks k).distance_m = rnd (rnd ((st.peaks k).time_s * SPEED_OF_SOUND) / 2)) ∧
  (∀ j k, 1 ≤ j → j < k → k < st.count → (st.peaks j).index < (st.peaks k).index)

/-- The zero-initialised peak array of program start. -/
def no_peaks : Nat → AudioPeak := fun _ => AudioPeak.zero

/-- The recording `one_spike` with a second spike of 10000 at index 5000. -/
def two_spikes : Nat → Int :=
  fun i => if i = 1000 then 32767 else if i = 5000 then 10000 else 0

/-- A recording that clips at its first sample: `-32768`, then `100`, then silence. -/
def clipped : Nat → Int := fun i => if i = 0 then -32768 else if i = 1 then 100 else 0

/-- A recording whose only non-zero sample is a clipped first sample `-32768`. -/
def clipped_only : Nat → Int := fun i => if i = 0 then -32768 else 0

/-- A recording with a pulse of 1000 at index 0 and an echo of 500 at index 3307. -/
def edge_echo : Nat → Int := fun i => if i = 0 then 1000 else if i = 3307 then 500 else 0

/-- A sequence of capture callbacks, each a delivered stream with its length in
bytes. -/
def run_callbacks (g : Globals) : List ((Nat → Nat) × Int) → Globals
  | [] => g
  | c :: rest => run_callbacks (audio_recording_callback g c.1 c.2) rest

/-- The bytes of the recording `two_spikes`: `32767 = 0x7FFF` at sample 1000 and
`10000 = 0x2710` at sample 5000. -/
def two_spikes_bytes : Nat → Nat :=
  fun a =>
    if a = 2000 then 255 else if a = 2001 then 127
    else if a = 10000 then 16 else if a = 10001 then 39 else 0

/-- A recording made by the program, with binary32 arithmetic: program start on a
zeroed heap, SPACE, and one capture callback delivering the 88200 bytes of
`two_spikes`. -/
def demo_recorded : Globals :=
  step round32 (step round32 (initial round32 (fun _ => 0)) (Event.key Key.SDLK_SPACE))
    (Event.audio two_spikes_bytes 88200)

/-- A whole session: the recording `demo_recorded` followed by the next
main-loop check. -/
def demo_session : Globals := step round32 demo_recorded Event.tick

/-- The relation between the first `count` slots of the peak array that the
program maintains: slot 0 has time and distance 0, and every later slot below
`count` carries the time offset from slot 0 and the distance computed from it,
each `float` operation rounded by `rnd`. -/
def PeaksOK (rnd : ℚ → ℚ) (peaks : Nat → AudioPeak) (count : Nat) : Prop :=
  (peaks 0).time_s = 0 ∧ (peaks 0).distance_m = 0 ∧
  ∀ k, 1 ≤ k → k < count →
    (peaks k).time_s =
      rnd (rnd (((((peaks k).index : Int) - ((peaks 0).index : Int) : Int) : ℚ)) /
        (AUDIO_FREQ : ℚ)) ∧
    (peaks k).distance_m = rnd (rnd ((peaks k).time_s * SPEED_OF_SOUND) / 2)

/-! ## Arithmetic facts -/

theorem DEAD_ZONE_eq : DEAD_ZONE = 3307 := by
  have h : truncQ ((((BEEP_DURATION_MS : ℚ) * (3 / 2)) / 1000) * (AUDIO_FREQ : ℚ)) = 3307 := by
    unfold truncQ BEEP_DURATION_MS AUDIO_FREQ
    norm_num
  unfold DEAD_ZONE
  rw [h]
  rfl

theorem COOLDOWN_eq : COOLDOWN = 2205 := by
  have h : truncQ (((BEEP_DURATION_MS : ℚ) / 1000) * (AUDIO_FREQ : ℚ)) = 2205 := by
    unfold truncQ BEEP_DURATION_MS AUDIO_FREQ
    norm_num
  unfold COOLDOWN
  rw [h]
  rfl

theorem wrap16_of_range (x : Int) (h1 : -32768 ≤ x) (h2 : x ≤ 32767) : wrap16 x = x := by
  unfold wrap16
  omega

theorem wrap16_range (x : Int) : -32768 ≤ wrap16 x ∧ wrap16 x ≤ 32767 := by
  unfold wrap16
  omega

theorem find_max_zero (buf : Nat → Int) : find_max buf 0 = (0, 0) := rfl

theorem find_max_succ (buf : Nat → Int) (n : Nat) :
    find_max buf (n + 1) =
      if |buf n| > (find_max buf n).1 then (wrap16 |buf n|, n) else find_max buf n := by
  simp [find_max, List.range_succ, List.foldl_append]

theorem find_max_range (buf : Nat → Int) (n : Nat) :
    -32768 ≤ (find_max buf n).1 ∧ (find_max buf n).1 ≤ 32767 := by
  induction n with
  | zero => simp [find_max_zero]
  | succ n ih =>
    rw [find_max_succ]
    split
    · exact wrap16_range _
    · exact ih

theorem find_max_idx_lt (buf : Nat → Int) (n : Nat) (hn : 0 < n) : (find_max buf n).2 < n := by
  induction n with
  | zero => omega
  | succ n ih =>
    rw [find_max_succ]
    split
    · simp
    · rcases Nat.eq_zero_or_pos n with h0 | h0
      · subst h0; simp [find_max_zero]
      · have := ih h0
        omega

theorem find_max_after (buf : Nat → Int) (n i : Nat) (h1 : (find_max buf n).2 < i)
    (h2 : i < n) : |buf i| ≤ (find_max buf n).1 := by
  induction n with
  | zero => omega
  | succ n ih =>
    rw [find_max_succ] at h1 ⊢
    split
    next hgt =>
      rw [if_pos hgt] at h1
      simp at h1
      omega
    next hle =>
      rw [if_neg hle] at h1
      rcases Nat.lt_or_ge i n with hin | hin
      · exact ih h1 hin
      · have : i = n := by omega
        subst this
        omega

/-- Without a sample of magnitude 32768 the scan computes the true maximum and
its first position. -/
theorem find_max_spec (buf : Nat → Int) (n : Nat) (hb : ∀ i, i < n → |buf i| ≤ 32767) :
    0 ≤ (find_max buf n).1 ∧ (∀ i, i < n → |buf i| ≤ (find_max buf n).1) ∧
      (∀ i, i < (find_max buf n).2 → |buf i| < (find_max buf n).1) ∧
      (0 < n → |buf (find_max buf n).2| = (find_max buf n).1) := by
  induction n with
  | zero => simp [find_max_zero]
  | succ n ih =>
    have ih1 := ih (fun i hi => hb i (by omega))
    obtain ⟨p0, p1, p2, p3⟩ := ih1
    have hbn := hb n (by omega)
    have habs : 0 ≤ |buf n| := abs_nonneg _
    rw [find_max_succ]
    split
    next hgt =>
      have hw : wrap16 |buf n| = |buf n| := wrap16_of_range _ (by omega) hbn
      simp only [hw]
      refine ⟨habs, ?_, ?_, fun _ => trivial⟩
      · intro i hi
        rcases Nat.lt_or_ge i n with hin | hin
        · have := p1 i hin; omega
        · have : i = n := by omega
          subst this; exact le_refl _
      · intro i hi
        have := p1 i hi; omega
    next hle =>
      refine ⟨p0, ?_, p2, ?_⟩
      · intro i hi
        rcases Nat.lt_or_ge i n with hin | hin
        · exact p1 i hin
        · have : i = n := by omega
          subst this; omega
      · intro _
        rcases Nat.eq_zero_or_pos n with h0 | h0
        · subst h0
          simp [find_max_zero] at hle ⊢
          omega
        · exact p3 h0

/-- The scan result is determined by the maximum and its first position. -/
theorem find_max_unique (buf : Nat → Int) (n k : Nat) (M : Int)
    (hb : ∀ i, i < n → |buf i| ≤ 32767) (hk : k < n) (hM : |buf k| = M)
    (hle : ∀ i, i < n → |buf i| ≤ M) (hlt : ∀ i, i < k → |buf i| < M) :
    find_max buf n = (M, k) := by
  obtain ⟨_, p1, p2, p3⟩ := find_max_spec buf n hb
  have hn : 0 < n := by omega
  have hidx := find_max_idx_lt buf n hn
  have e3 := p3 hn
  have a1 := p1 k hk
  have a2 := hle _ hidx
  have hm : (find_max buf n).1 = M := by omega
  have hi : (find_max buf n).2 = k := by
    rcases Nat.lt_trichotomy (find_max buf n).2 k with h | h | h
    · have := hlt _ h; omega
    · exact h
    · have := p2 k h; omega
  exact Prod.ext hm hi

/-! ## The echo loop: fuel and unfolding -/

section Scan

variable (rnd : ℚ → ℚ) (buf : Nat → Int) (n : Nat) (thr : Int)

theorem scan_body_of_peak (st : ScanState) (h : is_echo_peak buf thr st.i) :
    scan_body rnd buf thr st =
      { i := st.i + COOLDOWN + 1
        peaks := write_peak rnd buf st.peaks st.count st.i
        count := st.count + 1 } := by
  unfold scan_body
  rw [if_pos h]

theorem scan_body_of_not_peak (st : ScanState) (h : ¬ is_echo_peak buf thr st.i) :
    scan_body rnd buf thr st = { st with i := st.i + 1 } := by
  unfold scan_body
  rw [if_neg h]

theorem scan_body_i (st : ScanState) : st.i + 1 ≤ (scan_body rnd buf thr st).i := by
  unfold scan_body
  split <;> simp

theorem scan_loop_stable (fuel : Nat) (st : ScanState) (h : ¬ scan_guard n st) :
    scan_loop rnd buf n thr fuel st = st := by
  cases fuel with
  | zero => rfl
  | succ f => simp [scan_loop, h]

theorem scan_loop_step (fuel : Nat) (st : ScanState) (h : scan_guard n st) :
    scan_loop rnd buf n thr (fuel + 1) st =
      scan_loop rnd buf n thr fuel (scan_body rnd buf thr st) := by
  simp [scan_loop, h]

/-- With `fuel ≥ total_samples - 1 - i` the loop has run to its end: the loop
condition is false in the state returned. -/
theorem scan_loop_done (fuel : Nat) (st : ScanState) (h : n ≤ st.i + fuel + 1) :
    ¬ scan_guard n (scan_loop rnd buf n thr fuel st) := by
  induction fuel generalizing st with
  | zero =>
    simp only [scan_loop]
    unfold scan_guard
    omega
  | succ f ih =>
    by_cases hg : scan_guard n st
    · rw [scan_loop_step rnd buf n thr f st hg]
      apply ih
      have := scan_body_i rnd buf thr st
      omega
    · rw [scan_loop_stable rnd buf n thr _ st hg]
      exact hg

theorem scan_loop_add (f1 f2 : Nat) (st : ScanState) :
    scan_loop rnd buf n thr (f1 + f2) st =
      scan_loop rnd buf n thr f2 (scan_loop rnd buf n thr f1 st) := by
  induction f1 generalizing st with
  | zero => simp [scan_loop]
  | succ f ih =>
    by_cases hg : scan_guard n st
    · have e : f + 1 + f2 = (f + f2) + 1 := by omega
      rw [e, scan_loop_step rnd buf n thr _ st hg, scan_loop_step rnd buf n thr _ st hg, ih]
    · rw [scan_loop_stable rnd buf n thr _ st hg, scan_loop_stable rnd buf n thr _ st hg,
        scan_loop_stable rnd buf n thr _ st hg]

theorem scan_loop_fuel (f g : Nat) (st : ScanState) (h : n ≤ st.i + f + 1) (hfg : f ≤ g) :
    scan_loop rnd buf n thr g st = scan_loop rnd buf n thr f st := by
  obtain ⟨d, rfl⟩ := Nat.exists_eq_add_of_le hfg
  rw [scan_loop_add]
  exact scan_loop_stable rnd buf n thr d _ (scan_loop_done rnd buf n thr f st h)

/-- The loop equation at the fuel `analyze_recording` uses. -/
theorem scan_loop_eq (st : ScanState) :
    scan_loop rnd buf n thr n st =
      if scan_guard n st then scan_loop rnd buf n thr n (scan_body rnd buf thr st) else st := by
  by_cases hg : scan_guard n st
  · rw [if_pos hg]
    have hb := scan_body_i rnd buf thr st
    have hlt : st.i + 1 < n := by
      unfold scan_guard at hg
      omega
    obtain ⟨m, hm⟩ : ∃ m, n = m + 1 := ⟨n - 1, by omega⟩
    have e1 : scan_loop rnd buf n thr n st =
        scan_loop rnd buf n thr m (scan_body rnd buf thr st) := by
      conv_lhs => rw [hm]
      rw [← hm]
      have := scan_loop_step rnd buf n thr m st hg
      rw [← hm] at this
      exact this
    rw [e1]
    symm
    apply scan_loop_fuel
    · omega
    · omega
  · rw [if_neg hg]
    exact scan_loop_stable rnd buf n thr n st hg

/-- Loop-invariant rule for the echo loop. -/
theorem scan_loop_inv (Inv : ScanState → Prop)
    (hstep : ∀ s, Inv s → scan_guard n s → Inv (scan_body rnd buf thr s))
    (fuel : Nat) (st : ScanState) (h0 : Inv st) :
    Inv (scan_loop rnd buf n thr fuel st) := by
  induction fuel generalizing st with
  | zero => exact h0
  | succ f ih =>
    by_cases hg : scan_guard n st
    · rw [scan_loop_step rnd buf n thr f st hg]
      exact ih _ (hstep st h0 hg)
    · rw [scan_loop_stable rnd buf n thr _ st hg]
      exact h0

/-- Invariant rule for the list of visited loop indices. -/
theorem scan_visited_inv (Inv : ScanState → Prop) (Q : Nat → Prop)
    (hstep : ∀ s, Inv s → scan_guard n s → Inv (scan_body rnd buf thr s))
    (hq : ∀ s, Inv s → scan_guard n s → Q s.i)
    (fuel : Nat) (st : ScanState) (h0 : Inv st) :
    ∀ i ∈ scan_visited rnd buf n thr fuel st, Q i := by
  induction fuel generalizing st with
  | zero => simp [scan_visited]
  | succ f ih =>
    by_cases hg : scan_guard n st
    · simp only [scan_visited, if_pos hg, List.mem_cons]
      intro i hi
      rcases hi with rfl | hi
      · exact hq st h0 hg
      · exact ih _ (hstep st h0 hg) i hi
    · simp [scan_visited, hg]

/-- More fuel than needed does not change the list of visited loop indices. -/
theorem scan_visited_fuel (f g : Nat) (st : ScanState) (h : n ≤ st.i + f + 1) (hfg : f ≤ g) :
    scan_visited rnd buf n thr g st = scan_visited rnd buf n thr f st := by
  induction f generalizing st g with
  | zero =>
    have hg : ¬ scan_guard n st := by
      unfold scan_guard
      omega
    cases g with
    | zero => rfl
    | succ g => simp [scan_visited, hg]
  | succ f ih =>
    obtain ⟨g, rfl⟩ : ∃ g0, g = g0 + 1 := ⟨g - 1, by omega⟩
    by_cases hg : scan_guard n st
    · simp only [scan_visited, if_pos hg]
      congr 1
      apply ih
      · have := scan_body_i rnd buf thr st
        omega
      · omega
    · simp [scan_visited, hg]

/-! ### Writing a peak -/

theorem write_peak_ne (peaks : Nat → AudioPeak) (count i k : Nat) (h : k ≠ count) :
    write_peak rnd buf peaks count i k = peaks k := by
  unfold write_peak
  simp [Function.update, h]

theorem write_peak_same (peaks : Nat → AudioPeak) (count i : Nat) (h : count ≠ 0) :
    write_peak rnd buf peaks count i count =
      { index := i
        amplitude := wrap16 |buf i|
        time_s := rnd (rnd ((((i : Int) - ((peaks 0).index : Int) : Int) : ℚ)) / (AUDIO_FREQ : ℚ))
        distance_m := rnd (rnd (rnd (rnd ((((i : Int) - ((peaks 0).index : Int) : Int) : ℚ)) /
          (AUDIO_FREQ : ℚ)) * SPEED_OF_SOUND) / 2) } := by
  unfold write_peak
  have h0 : ¬ (0 = count) := fun e => h e.symm
  simp [Function.update, h0]

/-! ### The invariant of the echo loop -/

theorem ScanInv_init (st0 : ScanState) (h : st0.count = 1) :
    ScanInv rnd buf n thr st0 st0 := by
  unfold ScanInv MAX_PEAKS
  refine ⟨by omega, by omega, le_refl _, fun _ _ => rfl, ?_, ?_⟩
  · intro k h1 h2; omega
  · intro j k h1 h2 h3; omega

theorem ScanInv_step (st0 s : ScanState) (hinv : ScanInv rnd buf n thr st0 s)
    (hg : scan_guard n s) : ScanInv rnd buf n thr st0 (scan_body rnd buf thr s) := by
  obtain ⟨c1, c2, hi, hsame, hslots, hasc⟩ := hinv
  unfold scan_guard at hg
  obtain ⟨hgi, hgc⟩ := hg
  by_cases hp : is_echo_peak buf thr s.i
  · rw [scan_body_of_peak rnd buf thr s hp]
    have hc0 : s.count ≠ 0 := by omega
    have hnew := write_peak_same rnd buf s.peaks s.count s.i hc0
    have h00 : s.peaks 0 = st0.peaks 0 := hsame 0 (Or.inl rfl)
    refine ⟨by simp, by simpa using hgc, by simp; omega, ?_, ?_, ?_⟩
    · intro k hk
      simp only at hk ⊢
      rw [write_peak_ne rnd buf s.peaks s.count s.i k (by omega)]
      exact hsame k (by omega)
    · intro k hk1 hk2
      simp only at hk2 ⊢
      rcases Nat.lt_or_ge k s.count with hlt | hge
      · rw [write_peak_ne rnd buf s.peaks s.count s.i k (by omega)]
        obtain ⟨a1, a2, a3, a4, a5, a6, a7⟩ := hslots k hk1 hlt
        exact ⟨a1, a2, by omega, a4, a5, a6, a7⟩
      · have hk : k = s.count := by omega
        subst hk
        rw [hnew, h00]
        refine ⟨hi, by simp only; omega, by simp only; omega, hp, rfl, rfl, rfl⟩
    · intro j k hj hjk hk
      simp only at hk ⊢
      rw [write_peak_ne rnd buf s.peaks s.count s.i j (by omega)]
      rcases Nat.lt_or_ge k s.count with hlt | hge
      · rw [write_peak_ne rnd buf s.peaks s.count s.i k (by omega)]
        exact hasc j k hj hjk hlt
      · have hk : k = s.count := by omega
        subst hk
        rw [hnew]
        exact (hslots j hj hjk).2.2.1
  · rw [scan_body_of_not_peak rnd buf thr s hp]
    refine ⟨c1, c2, by simp only; omega, hsame, ?_, hasc⟩
    intro k hk1 hk2
    obtain ⟨a1, a2, a3, a4, a5, a6, a7⟩ := hslots k hk1 hk2
    exact ⟨a1, a2, by simp only; omega, a4, a5, a6, a7⟩

theorem ScanInv_loop (fuel : Nat) (st0 : ScanState) (h : st0.count = 1) :
    ScanInv rnd buf n thr st0 (scan_loop rnd buf n thr fuel st0) :=
  scan_loop_inv rnd buf n thr (ScanInv rnd buf n thr st0)
    (fun s hs hg => ScanInv_step rnd buf n thr st0 s hs hg) fuel st0
    (ScanInv_init rnd buf n thr st0 h)

end Scan

/-! ## The echo loop: what it finds -/

section Find

variable (rnd : ℚ → ℚ) (buf : Nat → Int) (n : Nat) (thr : Int)

/-- Positions that fail the admission test are stepped over one at a time. -/
theorem scan_skip (d : Nat) (st : ScanState) (j : Nat) (hd : j = st.i + d)
    (hno : ∀ i, st.i ≤ i → i < j → i + 1 < n → ¬ is_echo_peak buf thr i) :
    (scan_loop rnd buf n thr n st).peaks =
        (scan_loop rnd buf n thr n { st with i := j }).peaks ∧
      (scan_loop rnd buf n thr n st).count =
        (scan_loop rnd buf n thr n { st with i := j }).count := by
  induction d generalizing st with
  | zero =>
    have : j = st.i := by omega
    subst this
    exact ⟨rfl, rfl⟩
  | succ d ih =>
    by_cases hg : scan_guard n st
    · have hlt : st.i + 1 < n := by
        unfold scan_guard at hg
        omega
      have hnp := hno st.i (le_refl _) (by omega) hlt
      rw [scan_loop_eq rnd buf n thr st, if_pos hg, scan_body_of_not_peak rnd buf thr st hnp]
      exact ih { st with i := st.i + 1 } (by simp only; omega)
        (fun i h1 h2 h3 => hno i (by simp only at h1; omega) h2 h3)
    · have hg2 : ¬ scan_guard n { st with i := j } := by
        unfold scan_guard at hg ⊢
        simp only
        omega
      rw [scan_loop_stable rnd buf n thr n st hg, scan_loop_stable rnd buf n thr n _ hg2]
      exact ⟨rfl, rfl⟩

/-- When no position from the loop index on passes the admission test, the loop
leaves the peak array and the count as they are. -/
theorem scan_none (st : ScanState)
    (hno : ∀ i, st.i ≤ i → i + 1 < n → ¬ is_echo_peak buf thr i) :
    (scan_loop rnd buf n thr n st).peaks = st.peaks ∧
      (scan_loop rnd buf n thr n st).count = st.count := by
  have h := scan_skip rnd buf n thr n st (st.i + n) rfl (fun i h1 _ h3 => hno i h1 h3)
  have hg2 : ¬ scan_guard n { st with i := st.i + n } := by
    unfold scan_guard
    simp only
    omega
  rw [scan_loop_stable rnd buf n thr n _ hg2] at h
  exact h

/-- At an admitted position the loop records the peak and jumps past the cooldown. -/
theorem scan_hit (st : ScanState) (hg : scan_guard n st) (hp : is_echo_peak buf thr st.i) :
    scan_loop rnd buf n thr n st =
      scan_loop rnd buf n thr n
        { i := st.i + COOLDOWN + 1
          peaks := write_peak rnd buf st.peaks st.count st.i
          count := st.count + 1 } := by
  rw [scan_loop_eq rnd buf n thr st, if_pos hg, scan_body_of_peak rnd buf thr st hp]

end Find

/-! ## The echo loop: a larger threshold finds no more peaks -/

section Compare

variable (rnd : ℚ → ℚ) (buf : Nat → Int) (n : Nat)

end Compare

/-! ## analyze_recording: case analysis and general facts -/

section Analyze

variable (rnd : ℚ → ℚ) (buf : Nat → Int) (n : Nat) (t : ℚ) (peaks : Nat → AudioPeak)

theorem analyze_of_zero : analyze_recording rnd buf 0 t peaks = ⟨peaks, 0⟩ := by
  simp [analyze_recording]

theorem analyze_of_silent (h : (find_max buf n).1 = 0) :
    analyze_recording rnd buf n t peaks = ⟨peaks, 0⟩ := by
  simp [analyze_recording, h]

theorem analyze_of_loud (hn : n ≠ 0) (h : (find_max buf n).1 ≠ 0) :
    analyze_recording rnd buf n t peaks =
      ⟨(scan_loop rnd buf n (threshold_val rnd (find_max buf n).1 t) n
          (scan_init buf n peaks)).peaks,
       (scan_loop rnd buf n (threshold_val rnd (find_max buf n).1 t) n
          (scan_init buf n peaks)).count⟩ := by
  unfold analyze_recording
  rw [if_neg hn, if_neg h]

theorem visited_of_quiet (h : n = 0 ∨ (find_max buf n).1 = 0) :
    analyze_visited rnd buf n t peaks = [] := by
  unfold analyze_visited
  rcases h with h | h
  · rw [if_pos h]
  · simp [h]

theorem visited_of_loud (hn : n ≠ 0) (h : (find_max buf n).1 ≠ 0) :
    analyze_visited rnd buf n t peaks =
      scan_visited rnd buf n (threshold_val rnd (find_max buf n).1 t) n
        (scan_init buf n peaks) := by
  unfold analyze_visited
  rw [if_neg hn, if_neg h]

/-- The two ways `analyze_recording` ends: at one of the two early returns, or
after the echo loop has run to its end in a state satisfying the invariant. -/
theorem analyze_cases :
    ((n = 0 ∨ (find_max buf n).1 = 0) ∧ analyze_recording rnd buf n t peaks = ⟨peaks, 0⟩) ∨
    (n ≠ 0 ∧ (find_max buf n).1 ≠ 0 ∧
      ∃ st, ScanInv rnd buf n (threshold_val rnd (find_max buf n).1 t)
          (scan_init buf n peaks) st ∧
        ¬ scan_guard n st ∧
        analyze_recording rnd buf n t peaks = ⟨st.peaks, st.count⟩) := by
  by_cases hn : n = 0
  · left
    subst hn
    exact ⟨Or.inl rfl, analyze_of_zero rnd buf t peaks⟩
  · by_cases hm : (find_max buf n).1 = 0
    · left
      exact ⟨Or.inr hm, analyze_of_silent rnd buf n t peaks hm⟩
    · right
      refine ⟨hn, hm, _, ?_, ?_, analyze_of_loud rnd buf n t peaks hn hm⟩
      · exact ScanInv_loop rnd buf n (threshold_val rnd (find_max buf n).1 t) n
          (scan_init buf n peaks) rfl
      · apply scan_loop_done
        omega

end Analyze

/-! ## The threshold -/

theorem rnd_bounds (rnd : ℚ → ℚ) (hr : FloatRounding rnd) (x : ℚ) (a b : Int)
    (ha : |a| ≤ 16777216) (hb : |b| ≤ 16777216) (h1 : (a : ℚ) ≤ x) (h2 : x ≤ (b : ℚ)) :
    (a : ℚ) ≤ rnd x ∧ rnd x ≤ (b : ℚ) := by
  obtain ⟨hmono, hint⟩ := hr
  constructor
  · rw [← hint a ha]
    exact hmono h1
  · rw [← hint b hb]
    exact hmono h2

theorem truncQ_bounds (y : ℚ) (a b : Int) (ha : (a : ℚ) ≤ y) (hb : y ≤ (b : ℚ)) :
    a ≤ truncQ y ∧ truncQ y ≤ b := by
  unfold truncQ
  split
  · constructor
    · exact Int.le_floor.mpr ha
    · have h := Int.floor_le y
      have : ((⌊y⌋ : Int) : ℚ) ≤ (b : ℚ) := le_trans h hb
      exact_mod_cast this
  · constructor
    · have h := Int.le_ceil y
      have : (a : ℚ) ≤ ((⌈y⌉ : Int) : ℚ) := le_trans ha h
      exact_mod_cast this
    · exact Int.ceil_le.mpr hb

theorem lt_of_truncQ_lt (y : ℚ) (a : Int) (h : truncQ y < a) : y < (a : ℚ) := by
  unfold truncQ at h
  split at h
  · exact Int.floor_lt.mp h
  · have h1 := Int.le_ceil y
    have h2 : ((⌈y⌉ : Int) : ℚ) < (a : ℚ) := by exact_mod_cast h
    exact lt_of_le_of_lt h1 h2

theorem product_bounds (m : Int) (t : ℚ) (hm1 : -32768 ≤ m) (hm2 : m ≤ 32767)
    (ht0 : 0 ≤ t) (ht1 : t ≤ 1) :
    (((-32768 : Int)) : ℚ) ≤ (m : ℚ) * t ∧ (m : ℚ) * t ≤ ((32767 : Int) : ℚ) := by
  have q1 : (-32768 : ℚ) ≤ (m : ℚ) := by exact_mod_cast hm1
  have q2 : (m : ℚ) ≤ 32767 := by exact_mod_cast hm2
  push_cast
  constructor
  · nlinarith [mul_nonneg (show (0 : ℚ) ≤ (m : ℚ) + 32768 by linarith) ht0]
  · nlinarith [mul_nonneg (show (0 : ℚ) ≤ 32767 - (m : ℚ) by linarith) ht0]

/-- For a threshold fraction in `[0, 1]` the conversion to `Sint16` does not wrap. -/
theorem threshold_val_eq (rnd : ℚ → ℚ) (hr : FloatRounding rnd) (m : Int) (t : ℚ)
    (hm1 : -32768 ≤ m) (hm2 : m ≤ 32767) (ht0 : 0 ≤ t) (ht1 : t ≤ 1) :
    threshold_val rnd m t = truncQ (rnd ((m : ℚ) * t)) := by
  obtain ⟨p1, p2⟩ := product_bounds m t hm1 hm2 ht0 ht1
  obtain ⟨r1, r2⟩ := rnd_bounds rnd hr _ (-32768) 32767 (by norm_num) (by norm_num) p1 p2
  obtain ⟨t1, t2⟩ := truncQ_bounds _ _ _ r1 r2
  unfold threshold_val
  exact wrap16_of_range _ t1 t2

/-- A magnitude above `threshold_val` is above the exact product. -/
theorem threshold_val_lt (rnd : ℚ → ℚ) (hr : FloatRounding rnd) (m : Int) (t : ℚ) (a : Int)
    (hm1 : -32768 ≤ m) (hm2 : m ≤ 32767) (ht0 : 0 ≤ t) (ht1 : t ≤ 1)
    (ha : |a| ≤ 16777216) (h : threshold_val rnd m t < a) : (m : ℚ) * t < (a : ℚ) := by
  rw [threshold_val_eq rnd hr m t hm1 hm2 ht0 ht1] at h
  have h1 := lt_of_truncQ_lt _ _ h
  by_contra hc
  push_neg at hc
  have h2 := hr.1 hc
  rw [hr.2 a ha] at h2
  linarith

theorem FloatRounding_id : FloatRounding id :=
  ⟨fun _ _ h => h, fun _ _ => rfl⟩

/-! ## binary32 rounding is a `FloatRounding` -/

theorem roundEven_intCast (k : Int) : roundEven (k : ℚ) = k := by
  simp [roundEven]

theorem roundEven_bounds (q : ℚ) : ⌊q⌋ ≤ roundEven q ∧ roundEven q ≤ ⌊q⌋ + 1 := by
  unfold roundEven
  split_ifs <;> omega

theorem roundEven_mono (x y : ℚ) (h : x ≤ y) : roundEven x ≤ roundEven y := by
  rcases lt_or_eq_of_le (Int.floor_le_floor h) with hlt | heq
  · have h1 := (roundEven_bounds x).2
    have h2 := (roundEven_bounds y).1
    omega
  · have hf : Int.fract x ≤ Int.fract y := by
      unfold Int.fract
      rw [heq]
      linarith
    unfold roundEven
    rw [heq]
    split_ifs <;> first | omega | (exfalso; linarith)

theorem ulp32_pos (q : ℚ) : 0 < ulp32 q := by
  unfold ulp32
  positivity

theorem round32_mag_nonneg (q : ℚ) (h : 0 ≤ q) : 0 ≤ round32_mag q := by
  unfold round32_mag
  have hu := ulp32_pos q
  have h1 : 0 ≤ q / ulp32 q := div_nonneg h hu.le
  have h2 : (0 : Int) ≤ roundEven (q / ulp32 q) := by
    have := roundEven_mono 0 _ h1
    have e : roundEven (0 : ℚ) = 0 := by
      have := roundEven_intCast 0
      simpa using this
    omega
  have h3 : (0 : ℚ) ≤ (roundEven (q / ulp32 q) : ℚ) := by exact_mod_cast h2
  exact mul_nonneg h3 hu.le

theorem two_pow_24_mul (z : Int) : (16777216 : ℚ) * (2 : ℚ) ^ (z - 23) = (2 : ℚ) ^ (z + 1) := by
  have h : (16777216 : ℚ) = (2 : ℚ) ^ (24 : Int) := by norm_num
  rw [h, ← zpow_add₀ (by norm_num)]
  congr 1
  ring

theorem two_pow_23_mul (z : Int) : (8388608 : ℚ) * (2 : ℚ) ^ (z - 23) = (2 : ℚ) ^ z := by
  have h : (8388608 : ℚ) = (2 : ℚ) ^ (23 : Int) := by norm_num
  rw [h, ← zpow_add₀ (by norm_num)]
  congr 1
  ring

theorem round32_mag_le_pow (x : ℚ) :
    round32_mag x ≤ (2 : ℚ) ^ (max (Int.log 2 x) (-126) + 1) := by
  have hlt : x < (2 : ℚ) ^ (Int.log 2 x + 1) := by
    have := Int.lt_zpow_succ_log_self (R := ℚ) (b := 2) (by norm_num) x
    simpa using this
  have hle : (2 : ℚ) ^ (Int.log 2 x + 1) ≤ (2 : ℚ) ^ (max (Int.log 2 x) (-126) + 1) :=
    zpow_le_zpow_right₀ (by norm_num) (by omega)
  have hu := ulp32_pos x
  have hmul : (16777216 : ℚ) * ulp32 x = (2 : ℚ) ^ (max (Int.log 2 x) (-126) + 1) :=
    two_pow_24_mul _
  have hdiv : x / ulp32 x ≤ ((16777216 : Int) : ℚ) := by
    rw [div_le_iff₀ hu]
    push_cast
    rw [hmul]
    linarith
  have hr := roundEven_mono _ _ hdiv
  rw [roundEven_intCast] at hr
  have hrq : (roundEven (x / ulp32 x) : ℚ) ≤ (16777216 : ℚ) := by exact_mod_cast hr
  unfold round32_mag
  rw [← hmul]
  exact mul_le_mul_of_nonneg_right hrq hu.le

theorem pow_le_round32_mag (y : ℚ) (hy : 0 < y) (hlog : -126 ≤ Int.log 2 y) :
    (2 : ℚ) ^ (Int.log 2 y) ≤ round32_mag y := by
  have hle : (2 : ℚ) ^ (Int.log 2 y) ≤ y := by
    have := Int.zpow_log_le_self (R := ℚ) (b := 2) (by norm_num) hy
    simpa using this
  have hmax : max (Int.log 2 y) (-126) = Int.log 2 y := max_eq_left hlog
  have hu := ulp32_pos y
  have hmul : (8388608 : ℚ) * ulp32 y = (2 : ℚ) ^ (Int.log 2 y) := by
    unfold ulp32
    rw [hmax]
    exact two_pow_23_mul _
  have hdiv : ((8388608 : Int) : ℚ) ≤ y / ulp32 y := by
    rw [le_div_iff₀ hu]
    push_cast
    rw [hmul]
    exact hle
  have hr := roundEven_mono _ _ hdiv
  rw [roundEven_intCast] at hr
  have hrq : (8388608 : ℚ) ≤ (roundEven (y / ulp32 y) : ℚ) := by exact_mod_cast hr
  unfold round32_mag
  rw [← hmul]
  exact mul_le_mul_of_nonneg_right hrq hu.le

theorem round32_mag_mono (x y : ℚ) (hx : 0 ≤ x) (h : x ≤ y) : round32_mag x ≤ round32_mag y := by
  rcases eq_or_lt_of_le hx with h0 | hpos
  · rw [← h0]
    have e : round32_mag 0 = 0 := by
      unfold round32_mag
      have := roundEven_intCast 0
      simp at this
      simp [this]
    rw [e]
    exact round32_mag_nonneg y (le_trans hx h)
  · have hy : 0 < y := lt_of_lt_of_le hpos h
    have hlog : Int.log 2 x ≤ Int.log 2 y := Int.log_mono_right hpos h
    rcases lt_or_eq_of_le (max_le_max hlog (le_refl (-126 : Int))) with hlt | heq
    · have h1 := round32_mag_le_pow x
      have hl : -126 ≤ Int.log 2 y := by
        by_contra hc
        rw [max_eq_right (by omega : Int.log 2 y ≤ -126)] at hlt
        have := le_max_right (Int.log 2 x) (-126)
        omega
      have h2 := pow_le_round32_mag y hy hl
      have h3 : (2 : ℚ) ^ (max (Int.log 2 x) (-126) + 1) ≤ (2 : ℚ) ^ (Int.log 2 y) := by
        apply zpow_le_zpow_right₀ (by norm_num)
        rw [max_eq_left hl] at hlt
        omega
      linarith
    · have hu : ulp32 x = ulp32 y := by
        unfold ulp32
        rw [heq]
      unfold round32_mag
      rw [hu]
      have hup := ulp32_pos y
      have hdiv : x / ulp32 y ≤ y / ulp32 y := div_le_div_of_nonneg_right h hup.le
      have hr := roundEven_mono _ _ hdiv
      have hrq : (roundEven (x / ulp32 y) : ℚ) ≤ (roundEven (y / ulp32 y) : ℚ) := by
        exact_mod_cast hr
      exact mul_le_mul_of_nonneg_right hrq hup.le

theorem round32_monotone : Monotone round32 := by
  intro x y h
  unfold round32
  by_cases hx : 0 ≤ x
  · have hy : 0 ≤ y := le_trans hx h
    rw [if_pos hx, if_pos hy]
    exact round32_mag_mono x y hx h
  · rw [if_neg hx]
    push_neg at hx
    by_cases hy : 0 ≤ y
    · rw [if_pos hy]
      have := round32_mag_nonneg (-x) (by linarith)
      have := round32_mag_nonneg y hy
      linarith
    · rw [if_neg hy]
      push_neg at hy
      have := round32_mag_mono (-y) (-x) (by linarith) (by linarith)
      linarith

theorem round32_mag_natCast (m : Nat) (hm : m ≤ 16777216) : round32_mag (m : ℚ) = (m : ℚ) := by
  rcases Nat.eq_zero_or_pos m with h0 | hpos
  · subst h0
    unfold round32_mag
    have := roundEven_intCast 0
    simp at this
    simp [this]
  have hlog : Int.log 2 (m : ℚ) = (Nat.log 2 m : Int) := Int.log_natCast 2 m
  have hle : Nat.log 2 m ≤ 24 := by
    have := Nat.log_mono_right (b := 2) hm
    have e : Nat.log 2 16777216 = 24 := by
      have : (16777216 : Nat) = 2 ^ 24 := by norm_num
      rw [this, Nat.log_pow (by norm_num)]
    omega
  have hmax : max (Int.log 2 (m : ℚ)) (-126) = (Nat.log 2 m : Int) := by
    rw [hlog]
    omega
  have hu : ulp32 (m : ℚ) = (2 : ℚ) ^ ((Nat.log 2 m : Int) - 23) := by
    unfold ulp32
    rw [hmax]
  have hint : ∃ j : Int, (m : ℚ) / ulp32 (m : ℚ) = (j : ℚ) := by
    rw [hu]
    rcases Nat.lt_or_ge (Nat.log 2 m) 24 with hlt | hge
    · obtain ⟨d, hd⟩ : ∃ d : Nat, (Nat.log 2 m : Int) - 23 = -(d : Int) :=
        ⟨23 - Nat.log 2 m, by omega⟩
      refine ⟨(m : Int) * 2 ^ d, ?_⟩
      rw [hd, zpow_neg, zpow_natCast, div_inv_eq_mul]
      push_cast
      rfl
    · have h24 : Nat.log 2 m = 24 := by omega
      have hp := Nat.pow_log_le_self 2 (Nat.pos_iff_ne_zero.mp hpos)
      rw [h24] at hp
      have hm2 : m = 16777216 := by
        have : (2 : Nat) ^ 24 = 16777216 := by norm_num
        omega
      refine ⟨8388608, ?_⟩
      rw [h24, hm2]
      norm_num
  obtain ⟨j, hj⟩ := hint
  unfold round32_mag
  rw [hj, roundEven_intCast, ← hj]
  exact div_mul_cancel₀ _ (ulp32_pos _).ne'

theorem FloatRounding_round32 : FloatRounding round32 := by
  refine ⟨round32_monotone, ?_⟩
  intro k hk
  unfold round32
  by_cases h0 : (0 : ℚ) ≤ (k : ℚ)
  · rw [if_pos h0]
    have hk0 : 0 ≤ k := by exact_mod_cast h0
    obtain ⟨m, rfl⟩ := Int.eq_ofNat_of_zero_le hk0
    have hm : m ≤ 16777216 := by
      rw [abs_of_nonneg hk0] at hk
      omega
    simpa using round32_mag_natCast m hm
  · rw [if_neg h0]
    have hk0 : k < 0 := by
      by_contra hc
      apply h0
      exact_mod_cast (not_lt.mp hc)
    obtain ⟨m, hm⟩ := Int.eq_ofNat_of_zero_le (show 0 ≤ -k by omega)
    have hmle : m ≤ 16777216 := by
      rw [abs_of_neg hk0] at hk
      omega
    have e : (-(k : ℚ)) = (m : ℚ) := by
      have : ((-k : Int) : ℚ) = ((m : Int) : ℚ) := by rw [hm]
      push_cast at this
      exact this
    rw [e, round32_mag_natCast m hmle, ← e]
    ring


/-! ### binary32 values -/

theorem roundEven_of_near (q : ℚ) (j : Int) (h1 : (j : ℚ) - 1 / 2 < q)
    (h2 : q < (j : ℚ) + 1 / 2) : roundEven q = j := by
  have hlo : j - 1 ≤ ⌊q⌋ := by
    apply Int.le_floor.mpr
    push_cast
    linarith
  have hhi : ⌊q⌋ < j + 1 := by
    apply Int.floor_lt.mpr
    push_cast
    linarith
  have hfr : Int.fract q = q - (⌊q⌋ : ℚ) := rfl
  rcases (show ⌊q⌋ = j ∨ ⌊q⌋ = j - 1 by omega) with h | h
  · have hf : Int.fract q < 1 / 2 := by
      rw [hfr, h]
      linarith
    unfold roundEven
    rw [if_pos hf, h]
  · have hf : 1 / 2 < Int.fract q := by
      rw [hfr, h]
      push_cast
      linarith
    unfold roundEven
    rw [if_neg (by linarith), if_pos hf, h]
    omega

theorem log2_eq (q : ℚ) (z : Int) (hq : 0 < q) (h1 : (2 : ℚ) ^ z ≤ q)
    (h2 : q < (2 : ℚ) ^ (z + 1)) : Int.log 2 q = z := by
  have a : z ≤ Int.log 2 q := by
    apply (Int.zpow_le_iff_le_log (R := ℚ) (b := 2) (by norm_num) hq).mp
    simpa using h1
  have b : Int.log 2 q < z + 1 := by
    apply (Int.lt_zpow_iff_log_lt (R := ℚ) (b := 2) (by norm_num) hq).mp
    simpa using h2
  omega

/-- The binary32 value of a positive rational in the normal range, from its
binade `z` and the integer `j` nearest to its significand. -/
theorem round32_eval (q : ℚ) (z j : Int) (hq : 0 < q) (h1 : (2 : ℚ) ^ z ≤ q)
    (h2 : q < (2 : ℚ) ^ (z + 1)) (hz : -126 ≤ z)
    (hj1 : (j : ℚ) - 1 / 2 < q / (2 : ℚ) ^ (z - 23))
    (hj2 : q / (2 : ℚ) ^ (z - 23) < (j : ℚ) + 1 / 2) :
    round32 q = (j : ℚ) * (2 : ℚ) ^ (z - 23) := by
  have hu : ulp32 q = (2 : ℚ) ^ (z - 23) := by
    unfold ulp32
    rw [log2_eq q z hq h1 h2, max_eq_left hz]
  unfold round32
  rw [if_pos hq.le]
  unfold round32_mag
  rw [hu, roundEven_of_near _ j hj1 hj2]

theorem round32_threshold : round32 (15 / 100) = 5033165 / 33554432 := by
  rw [round32_eval (15 / 100) (-3) 10066330 (by norm_num) (by norm_num) (by norm_num)
    (by norm_num) (by norm_num) (by norm_num)]
  norm_num

theorem round32_time : round32 ((5000 - 1000) / 44100) = 1521743 / 16777216 := by
  rw [round32_eval ((5000 - 1000) / 44100) (-4) 12173944 (by norm_num) (by norm_num)
    (by norm_num) (by norm_num) (by norm_num) (by norm_num)]
  norm_num

theorem round32_distance :
    round32 (round32 ((1521743 : ℚ) / 16777216 * 343) / 2) = 16311183 / 1048576 := by
  have h1 : round32 ((1521743 : ℚ) / 16777216 * 343) = 16311183 / 524288 := by
    rw [round32_eval ((1521743 : ℚ) / 16777216 * 343) 4 16311183 (by norm_num) (by norm_num)
      (by norm_num) (by norm_num) (by norm_num) (by norm_num)]
    norm_num
  rw [h1, round32_eval ((16311183 : ℚ) / 524288 / 2) 3 16311183 (by norm_num) (by norm_num)
    (by norm_num) (by norm_num) (by norm_num) (by norm_num)]
  norm_num

/-! ## Facts about the start state of the echo loop -/

theorem scan_init_zero (buf : Nat → Int) (n : Nat) (peaks : Nat → AudioPeak) :
    (scan_init buf n peaks).peaks 0 =
      { peaks 0 with index := (find_max buf n).2, amplitude := (find_max buf n).1 } := by
  simp [scan_init]

theorem scan_init_ne (buf : Nat → Int) (n : Nat) (peaks : Nat → AudioPeak) (k : Nat)
    (hk : k ≠ 0) : (scan_init buf n peaks).peaks k = peaks k := by
  simp [scan_init, Function.update, hk]

theorem find_max_all_zero (buf : Nat → Int) (n : Nat) (hz : ∀ i, i < n → buf i = 0) :
    find_max buf n = (0, 0) := by
  induction n with
  | zero => rfl
  | succ n ih =>
    rw [find_max_succ, ih (fun i hi => hz i (by omega)), hz n (by omega)]
    simp

/-- Every sample after the position of the maximum has magnitude at most 32767. -/
theorem abs_le_after_max (buf : Nat → Int) (n i : Nat) (h1 : (find_max buf n).2 < i)
    (h2 : i < n) : |buf i| ≤ 32767 :=
  le_trans (find_max_after buf n i h1 h2) (find_max_range buf n).2

theorem not_peak_of_zero (buf : Nat → Int) (thr : Int) (i : Nat) (h : buf i = 0) :
    ¬ is_echo_peak buf thr i := by
  unfold is_echo_peak
  rintro ⟨_, h2, _⟩
  rw [h] at h2
  have := abs_nonneg (buf (i - 1))
  simp at h2
  omega

/-- The maximum scan does not move over samples that do not exceed the maximum
found so far. -/
theorem find_max_stable (buf : Nat → Int) (a d : Nat)
    (h : ∀ i, a ≤ i → i < a + d → |buf i| ≤ (find_max buf a).1) :
    find_max buf (a + d) = find_max buf a := by
  induction d with
  | zero => rfl
  | succ d ih =>
    have e := ih (fun i h1 h2 => h i h1 (by omega))
    have hle := h (a + d) (by omega) (by omega)
    rw [← Nat.add_assoc, find_max_succ, e, if_neg (by omega)]

/-- A recording without an admitted position: the peak list is Peak #0 alone. -/
theorem analyze_single (rnd : ℚ → ℚ) (buf : Nat → Int) (n : Nat) (t : ℚ)
    (peaks : Nat → AudioPeak) (hn : n ≠ 0) (hm : (find_max buf n).1 ≠ 0)
    (hno : ∀ i, search_start_index (find_max buf n).2 ≤ i → i + 1 < n →
      ¬ is_echo_peak buf (threshold_val rnd (find_max buf n).1 t) i) :
    (analyze_recording rnd buf n t peaks).gDetectedPeaks = (scan_init buf n peaks).peaks ∧
      (analyze_recording rnd buf n t peaks).gPeakCount = 1 := by
  rw [analyze_of_loud rnd buf n t peaks hn hm]
  exact scan_none rnd buf n _ (scan_init buf n peaks) hno

/-- A recording with exactly one admitted position `i` outside the cooldown
windows: the peak list is Peak #0 followed by the peak written for `i`. -/
theorem analyze_double (rnd : ℚ → ℚ) (buf : Nat → Int) (n : Nat) (t : ℚ)
    (peaks : Nat → AudioPeak) (i : Nat) (hn : n ≠ 0) (hm : (find_max buf n).1 ≠ 0)
    (h1 : search_start_index (find_max buf n).2 ≤ i) (h2 : i + 1 < n)
    (hp : is_echo_peak buf (threshold_val rnd (find_max buf n).1 t) i)
    (hno1 : ∀ j, search_start_index (find_max buf n).2 ≤ j → j < i →
      ¬ is_echo_peak buf (threshold_val rnd (find_max buf n).1 t) j)
    (hno2 : ∀ j, i + COOLDOWN + 1 ≤ j → j + 1 < n →
      ¬ is_echo_peak buf (threshold_val rnd (find_max buf n).1 t) j) :
    (analyze_recording rnd buf n t peaks).gDetectedPeaks =
        write_peak rnd buf (scan_init buf n peaks).peaks 1 i ∧
      (analyze_recording rnd buf n t peaks).gPeakCount = 2 := by
  rw [analyze_of_loud rnd buf n t peaks hn hm]
  have hi : (scan_init buf n peaks).i = search_start_index (find_max buf n).2 := rfl
  obtain ⟨d, hd⟩ := Nat.exists_eq_add_of_le h1
  obtain ⟨e1, e2⟩ := scan_skip rnd buf n (threshold_val rnd (find_max buf n).1 t) d
    (scan_init buf n peaks) i (by rw [hi]; exact hd) (fun j a b _ => hno1 j (by rw [← hi]; exact a) b)
  have hg : scan_guard n { scan_init buf n peaks with i := i } := by
    unfold scan_guard MAX_PEAKS
    simp only [scan_init]
    omega
  have hh := scan_hit rnd buf n (threshold_val rnd (find_max buf n).1 t)
    { scan_init buf n peaks with i := i } hg hp
  rw [e1, e2, hh]
  exact scan_none rnd buf n _ _ hno2

/-! ### The test recordings -/

theorem find_max_two_spikes : find_max two_spikes 44100 = (32767, 1000) := by
  apply find_max_unique
  · intro i _
    unfold two_spikes
    split_ifs <;> simp
  · omega
  · simp [two_spikes]
  · intro i _
    unfold two_spikes
    split_ifs <;> simp
  · intro i hi
    have h1 : i ≠ 1000 := by omega
    have h2 : i ≠ 5000 := by omega
    simp [two_spikes, h1, h2]

theorem find_max_edge_echo : find_max edge_echo 44100 = (1000, 0) := by
  apply find_max_unique
  · intro i _
    unfold edge_echo
    split_ifs <;> simp
  · omega
  · simp [edge_echo]
  · intro i _
    unfold edge_echo
    split_ifs <;> simp
  · intro i hi
    omega

theorem find_max_clipped_two : find_max clipped 2 = (100, 1) := by
  simp [find_max, List.range_succ, clipped, wrap16]

theorem find_max_clipped : find_max clipped 44100 = (100, 1) := by
  have h := find_max_stable clipped 2 44098 (by
    intro i h1 _
    rw [find_max_clipped_two]
    have a : i ≠ 0 := by omega
    have b : i ≠ 1 := by omega
    simp [clipped, a, b])
  rw [find_max_clipped_two] at h
  exact h

theorem threshold_two_spikes_at (rnd : ℚ → ℚ) (hr : FloatRounding rnd) (t : ℚ) (ht0 : 0 ≤ t)
    (ht1 : t ≤ 3 / 10) : threshold_val rnd 32767 t ≤ 9831 := by
  rw [threshold_val_eq rnd hr 32767 t (by norm_num) (by norm_num) ht0 (by linarith)]
  have hb := rnd_bounds rnd hr (((32767 : Int) : ℚ) * t) 0 9831 (by norm_num)
    (by norm_num) (by push_cast; linarith) (by push_cast; linarith)
  exact (truncQ_bounds _ 0 9831 hb.1 hb.2).2

/-- The analysis of `two_spikes` at a threshold fraction of at most 0.3: Peak #0
at index 1000, the echo at index 5000 with the time and distance the `float`
operations of lines 242-244 deliver. -/
theorem analyze_two_spikes_at (rnd : ℚ → ℚ) (hr : FloatRounding rnd) (t : ℚ) (ht0 : 0 ≤ t)
    (ht1 : t ≤ 3 / 10) :
    (analyze_recording rnd two_spikes 44100 t no_peaks).gPeakCount = 2 ∧
      (analyze_recording rnd two_spikes 44100 t no_peaks).gDetectedPeaks 0 =
        ⟨1000, 32767, 0, 0⟩ ∧
      ((analyze_recording rnd two_spikes 44100 t no_peaks).gDetectedPeaks 1).index = 5000 ∧
      ((analyze_recording rnd two_spikes 44100 t no_peaks).gDetectedPeaks 1).amplitude =
        10000 ∧
      ((analyze_recording rnd two_spikes 44100 t no_peaks).gDetectedPeaks 1).time_s =
        rnd ((5000 - 1000) / 44100) ∧
      ((analyze_recording rnd two_spikes 44100 t no_peaks).gDetectedPeaks 1).distance_m =
        rnd (rnd (rnd ((5000 - 1000) / 44100) * 343) / 2) := by
  have hm : (find_max two_spikes 44100).1 ≠ 0 := by rw [find_max_two_spikes]; simp
  have hthr := threshold_two_spikes_at rnd hr t ht0 ht1
  obtain ⟨e1, e2⟩ := analyze_double rnd two_spikes 44100 t no_peaks 5000 (by omega) hm
    (by rw [find_max_two_spikes]; simp [search_start_index, DEAD_ZONE_eq]) (by omega)
    (by
      rw [find_max_two_spikes]
      have h5 : |two_spikes 5000| = 10000 := by simp [two_spikes]
      have h4 : |two_spikes (5000 - 1)| = 0 := by simp [two_spikes]
      have h6 : |two_spikes (5000 + 1)| = 0 := by simp [two_spikes]
      unfold is_echo_peak
      rw [h4, h5, h6]
      dsimp only
      omega)
    (by
      intro j h1 h2
      rw [find_max_two_spikes] at h1
      simp only [search_start_index, DEAD_ZONE_eq] at h1
      apply not_peak_of_zero
      have a : j ≠ 1000 := by omega
      have b : j ≠ 5000 := by omega
      simp [two_spikes, a, b])
    (by
      intro j h1 _
      rw [COOLDOWN_eq] at h1
      apply not_peak_of_zero
      have a : j ≠ 1000 := by omega
      have b : j ≠ 5000 := by omega
      simp [two_spikes, a, b])
  have h0 : (scan_init two_spikes 44100 no_peaks).peaks 0 = ⟨1000, 32767, 0, 0⟩ := by
    rw [scan_init_zero, find_max_two_spikes]
    rfl
  have hw := write_peak_same rnd two_spikes (scan_init two_spikes 44100 no_peaks).peaks 1 5000
    (by omega)
  rw [h0] at hw
  have h4 : ((((5000 : Nat) : Int) - ((1000 : Nat) : Int) : Int) : ℚ) = ((4000 : Int) : ℚ) := by
    norm_num
  have h5 : ((4000 : Int) : ℚ) / ((AUDIO_FREQ : Nat) : ℚ) = (5000 - 1000) / 44100 := by
    unfold AUDIO_FREQ
    norm_num
  have hV : SPEED_OF_SOUND = 343 := rfl
  refine ⟨e2, ?_, ?_, ?_, ?_, ?_⟩
  · rw [e1, write_peak_ne rnd two_spikes _ 1 5000 0 (by omega), h0]
  · rw [e1, hw]
  · rw [e1, hw]
    simp [two_spikes, wrap16]
  · rw [e1, hw]
    simp only
    rw [h4, hr.2 4000 (by norm_num), h5]
  · rw [e1, hw]
    simp only
    rw [h4, hr.2 4000 (by norm_num), h5, hV]

theorem analyze_two_spikes (rnd : ℚ → ℚ) (hr : FloatRounding rnd) :
    (analyze_recording rnd two_spikes 44100 (15 / 100) no_peaks).gPeakCount = 2 ∧
      (analyze_recording rnd two_spikes 44100 (15 / 100) no_peaks).gDetectedPeaks 0 =
        ⟨1000, 32767, 0, 0⟩ ∧
      ((analyze_recording rnd two_spikes 44100 (15 / 100) no_peaks).gDetectedPeaks 1).index =
        5000 ∧
      ((analyze_recording rnd two_spikes 44100 (15 / 100) no_peaks).gDetectedPeaks 1).amplitude =
        10000 ∧
      ((analyze_recording rnd two_spikes 44100 (15 / 100) no_peaks).gDetectedPeaks 1).time_s =
        rnd ((5000 - 1000) / 44100) := by
  obtain ⟨a, b, c, d, e, _⟩ :=
    analyze_two_spikes_at rnd hr (15 / 100) (by norm_num) (by norm_num)
  exact ⟨a, b, c, d, e⟩

/-- C7: if the first `n` samples are all zero (`n = 0` included), then for every
threshold and every prior content of the peak array `analyze_recording` leaves
the peak count at 0. -/
theorem analyze_recording_silent (rnd : ℚ → ℚ) (buf : Nat → Int) (n : Nat) (t : ℚ)
    (peaks : Nat → AudioPeak) (hz : ∀ i, i < n → buf i = 0) :
    (analyze_recording rnd buf n t peaks).gPeakCount = 0 := by
  rw [analyze_of_silent rnd buf n t peaks (by rw [find_max_all_zero buf n hz])]

/-- Witness of C7: one second of silence at threshold 0.15. -/
theorem analyze_recording_silent_witness :
    (∀ i, i < 44100 → (fun _ : Nat => (0 : Int)) i = 0) ∧
      (analyze_recording id (fun _ => 0) 44100 (15 / 100) no_peaks).gPeakCount = 0 :=
  ⟨fun _ _ => rfl,
    analyze_recording_silent id (fun _ => 0) 44100 (15 / 100) no_peaks (fun _ _ => rfl)⟩

/-- C8: the peak list `analyze_recording` leaves is well-formed.  It has at most
20 entries and no slot from 20 on is written; every peak index is below `n`;
the indices are strictly ascending; and at every loop index `i` of the echo
scan the positions `i-1`, `i`, `i+1` lie in `[0, n)`. -/
theorem analyze_recording_well_formed (rnd : ℚ → ℚ) (buf : Nat → Int) (n : Nat) (t : ℚ)
    (peaks : Nat → AudioPeak) :
    (analyze_recording rnd buf n t peaks).gPeakCount ≤ MAX_PEAKS ∧
    (∀ k, MAX_PEAKS ≤ k → (analyze_recording rnd buf n t peaks).gDetectedPeaks k = peaks k) ∧
    (∀ k, k < (analyze_recording rnd buf n t peaks).gPeakCount →
      ((analyze_recording rnd buf n t peaks).gDetectedPeaks k).index < n) ∧
    (∀ j k, j < k → k < (analyze_recording rnd buf n t peaks).gPeakCount →
      ((analyze_recording rnd buf n t peaks).gDetectedPeaks j).index <
        ((analyze_recording rnd buf n t peaks).gDetectedPeaks k).index) ∧
    (∀ i ∈ analyze_visited rnd buf n t peaks,
      (0 : Int) ≤ (i : Int) - 1 ∧ (i : Int) + 1 < (n : Int)) := by
  rcases analyze_cases rnd buf n t peaks with ⟨hq, hres⟩ | ⟨hn, hm, st, hinv, _, hres⟩
  · rw [hres, visited_of_quiet rnd buf n t peaks hq]
    simp
  · rw [hres]
    obtain ⟨c1, c2, hi, hsame, hslots, hasc⟩ := hinv
    have hidx := find_max_idx_lt buf n (Nat.pos_of_ne_zero hn)
    have h0 : (st.peaks 0).index = (find_max buf n).2 := by
      rw [hsame 0 (Or.inl rfl), scan_init_zero]
    have hss : (scan_init buf n peaks).i = (find_max buf n).2 + 3307 := by
      simp [scan_init, search_start_index, DEAD_ZONE_eq]
    refine ⟨c2, ?_, ?_, ?_, ?_⟩
    · intro k hk
      simp only
      unfold MAX_PEAKS at hk c2
      rw [hsame k (Or.inr (by omega)), scan_init_ne buf n peaks k (by omega)]
    · intro k hk
      simp only at hk ⊢
      rcases Nat.eq_zero_or_pos k with hk0 | hk0
      · subst hk0
        rw [h0]
        exact hidx
      · have := (hslots k hk0 hk).2.1
        omega
    · intro j k hjk hk
      simp only at hk ⊢
      rcases Nat.eq_zero_or_pos j with hj0 | hj0
      · subst hj0
        have := (hslots k hjk hk).1
        omega
      · exact hasc j k hj0 hjk hk
    · rw [visited_of_loud rnd buf n t peaks hn hm]
      apply scan_visited_inv rnd buf n _ (fun s => (scan_init buf n peaks).i ≤ s.i)
      · intro s hs _
        have := scan_body_i rnd buf (threshold_val rnd (find_max buf n).1 t) s
        exact le_trans hs (by omega)
      · intro s hs hg
        unfold scan_guard at hg
        omega
      · exact le_refl _

/-- C2: for every buffer, every valid-sample count `n`, a threshold fraction `t`
in `[0.01, 1.0]` and every rounding `rnd` of the `float` product that is
monotone and exact on small integers, every peak `k ≥ 1` of the output has `amplitude_k = |sample[index_k]|`, `amplitude_k > t * Peak0.amplitude`
with the product taken exactly, and is a strict local maximum of the magnitudes:
`|sample[index_k]|` exceeds both `|sample[index_k - 1]|` and `|sample[index_k + 1]|`,
where `index_k - 1` and `index_k + 1` are positions of the `n` valid samples. -/
theorem echo_peaks_admitted (rnd : ℚ → ℚ) (hr : FloatRounding rnd) (buf : Nat → Int) (n : Nat)
    (t : ℚ) (peaks : Nat → AudioPeak) (ht0 : 1 / 100 ≤ t) (ht1 : t ≤ 1) (k : Nat)
    (hk1 : 1 ≤ k) (hk2 : k < (analyze_recording rnd buf n t peaks).gPeakCount) :
    ((analyze_recording rnd buf n t peaks).gDetectedPeaks k).amplitude =
      |buf ((analyze_recording rnd buf n t peaks).gDetectedPeaks k).index| ∧
    (((analyze_recording rnd buf n t peaks).gDetectedPeaks k).amplitude : ℚ) >
      t * (((analyze_recording rnd buf n t peaks).gDetectedPeaks 0).amplitude : ℚ) ∧
    1 ≤ ((analyze_recording rnd buf n t peaks).gDetectedPeaks k).index ∧
    ((analyze_recording rnd buf n t peaks).gDetectedPeaks k).index + 1 < n ∧
    |buf ((analyze_recording rnd buf n t peaks).gDetectedPeaks k).index| >
      |buf (((analyze_recording rnd buf n t peaks).gDetectedPeaks k).index - 1)| ∧
    |buf ((analyze_recording rnd buf n t peaks).gDetectedPeaks k).index| >
      |buf (((analyze_recording rnd buf n t peaks).gDetectedPeaks k).index + 1)| := by
  rcases analyze_cases rnd buf n t peaks with ⟨hq, hres⟩ | ⟨hn, hm, st, hinv, _, hres⟩
  · rw [hres] at hk2
    simp at hk2
  · rw [hres] at hk2 ⊢
    simp only at hk2 ⊢
    obtain ⟨c1, c2, hi, hsame, hslots, hasc⟩ := hinv
    obtain ⟨a1, a2, a3, a4, a5, a6, a7⟩ := hslots k hk1 hk2
    have hss : (scan_init buf n peaks).i = (find_max buf n).2 + 3307 := by
      simp [scan_init, search_start_index, DEAD_ZONE_eq]
    have hle : |buf (st.peaks k).index| ≤ 32767 :=
      abs_le_after_max buf n _ (by omega) (by omega)
    have hnn : 0 ≤ |buf (st.peaks k).index| := abs_nonneg _
    have hamp : (st.peaks k).amplitude = |buf (st.peaks k).index| := by
      rw [a5]
      exact wrap16_of_range _ (by omega) hle
    have h0 : (st.peaks 0).amplitude = (find_max buf n).1 := by
      rw [hsame 0 (Or.inl rfl), scan_init_zero]
    obtain ⟨e1, e2, e3⟩ := a4
    obtain ⟨m1, m2⟩ := find_max_range buf n
    have hlt := threshold_val_lt rnd hr (find_max buf n).1 t |buf (st.peaks k).index|
      m1 m2 (by linarith) ht1 (by rw [abs_abs]; omega) e1
    refine ⟨hamp, ?_, by omega, a2, e2, e3⟩
    rw [hamp, h0, mul_comm]
    exact hlt

/-- C6 (amended): the echo scan starts at `max_idx + 3307`, the truncation of
`1.5 * 50 / 1000 * 44100 = 3307.5`, so no reported echo peak has an index below
`Peak0.index + 3307`. -/
theorem echo_after_dead_zone (rnd : ℚ → ℚ) (buf : Nat → Int) (n : Nat) (t : ℚ)
    (peaks : Nat → AudioPeak) :
    search_start_index (find_max buf n).2 = (find_max buf n).2 + 3307 ∧
    ∀ k, 1 ≤ k → k < (analyze_recording rnd buf n t peaks).gPeakCount →
      ((analyze_recording rnd buf n t peaks).gDetectedPeaks 0).index + 3307 ≤
        ((analyze_recording rnd buf n t peaks).gDetectedPeaks k).index := by
  have hss : search_start_index (find_max buf n).2 = (find_max buf n).2 + 3307 := by
    simp [search_start_index, DEAD_ZONE_eq]
  refine ⟨hss, ?_⟩
  rcases analyze_cases rnd buf n t peaks with ⟨hq, hres⟩ | ⟨hn, hm, st, hinv, _, hres⟩
  · rw [hres]
    intro k _ hk
    simp at hk
  · rw [hres]
    intro k hk1 hk2
    simp only at hk2 ⊢
    obtain ⟨c1, c2, hi, hsame, hslots, hasc⟩ := hinv
    have h0 : (st.peaks 0).index = (find_max buf n).2 := by
      rw [hsame 0 (Or.inl rfl), scan_init_zero]
    have := (hslots k hk1 hk2).1
    have hi2 : (scan_init buf n peaks).i = search_start_index (find_max buf n).2 := rfl
    omega

/-- Witness of C2: the echo of `two_spikes` at threshold 0.15 with binary32
rounding. -/
theorem echo_peaks_admitted_witness :
    FloatRounding round32 ∧ (1 : ℚ) / 100 ≤ 15 / 100 ∧ (15 : ℚ) / 100 ≤ 1 ∧
    1 < (analyze_recording round32 two_spikes 44100 (15 / 100) no_peaks).gPeakCount ∧
    (((analyze_recording round32 two_spikes 44100 (15 / 100) no_peaks).gDetectedPeaks 1).amplitude : ℚ) >
      15 / 100 *
        (((analyze_recording round32 two_spikes 44100 (15 / 100) no_peaks).gDetectedPeaks 0).amplitude : ℚ) :=
  ⟨FloatRounding_round32, by norm_num, by norm_num,
    by rw [(analyze_two_spikes round32 FloatRounding_round32).1]; omega,
    (echo_peaks_admitted round32 FloatRounding_round32 two_spikes 44100 (15 / 100) no_peaks
      (by norm_num) (by norm_num) 1 (le_refl 1)
      (by rw [(analyze_two_spikes round32 FloatRounding_round32).1]; omega)).2.1⟩

/-- Away from the clipping value the first loop is right: when no valid sample
is `-32768` and some sample is not zero, Peak #0 holds the global maximum of the
magnitudes and the lowest index at which it is attained. -/
theorem peak0_is_first_maximum (rnd : ℚ → ℚ) (buf : Nat → Int) (n : Nat) (t : ℚ)
    (peaks : Nat → AudioPeak) (hb : ∀ i, i < n → |buf i| ≤ 32767)
    (hnz : ∃ i, i < n ∧ buf i ≠ 0) :
    1 ≤ (analyze_recording rnd buf n t peaks).gPeakCount ∧
    ((analyze_recording rnd buf n t peaks).gDetectedPeaks 0).index < n ∧
    |buf ((analyze_recording rnd buf n t peaks).gDetectedPeaks 0).index| =
      ((analyze_recording rnd buf n t peaks).gDetectedPeaks 0).amplitude ∧
    (∀ i, i < n → |buf i| ≤ ((analyze_recording rnd buf n t peaks).gDetectedPeaks 0).amplitude) ∧
    (∀ i, i < ((analyze_recording rnd buf n t peaks).gDetectedPeaks 0).index →
      |buf i| < ((analyze_recording rnd buf n t peaks).gDetectedPeaks 0).amplitude) := by
  obtain ⟨i0, hi0, hne⟩ := hnz
  obtain ⟨p0, p1, p2, p3⟩ := find_max_spec buf n hb
  have hpos : 0 < |buf i0| := abs_pos.mpr hne
  have hm : (find_max buf n).1 ≠ 0 := by
    have := p1 i0 hi0
    omega
  rcases analyze_cases rnd buf n t peaks with ⟨hq, _⟩ | ⟨hn, _, st, hinv, _, hres⟩
  · rcases hq with h | h
    · omega
    · exact absurd h hm
  · rw [hres]
    obtain ⟨c1, _, _, hsame, _, _⟩ := hinv
    have h0 : st.peaks 0 =
        { peaks 0 with index := (find_max buf n).2, amplitude := (find_max buf n).1 } := by
      rw [hsame 0 (Or.inl rfl), scan_init_zero]
    simp only [h0]
    exact ⟨c1, find_max_idx_lt buf n (by omega), p3 (by omega), p1, p2⟩

/-- C1 (code defect): on the one-second recording `clipped`, whose first sample
is `-32768`, the list is one peak with index 1 and amplitude 100, although the
largest magnitude is `|sample_0| = 32768`: the store of `abs(-32768)` into the
`Sint16 max_amplitude` wraps to `-32768`, and the next sample replaces it. -/
theorem clipped_peak0_not_maximum :
    (∀ i, -32768 ≤ clipped i ∧ clipped i ≤ 32767) ∧ |clipped 0| = 32768 ∧
    (analyze_recording id clipped 44100 (15 / 100) no_peaks).gPeakCount = 1 ∧
    ((analyze_recording id clipped 44100 (15 / 100) no_peaks).gDetectedPeaks 0).index = 1 ∧
    ((analyze_recording id clipped 44100 (15 / 100) no_peaks).gDetectedPeaks 0).amplitude =
      100 := by
  have hm : (find_max clipped 44100).1 ≠ 0 := by rw [find_max_clipped]; simp
  obtain ⟨e1, e2⟩ := analyze_single id clipped 44100 (15 / 100) no_peaks (by omega) hm (by
    intro i hi _
    rw [find_max_clipped] at hi
    simp only [search_start_index, DEAD_ZONE_eq] at hi
    apply not_peak_of_zero
    have a : i ≠ 0 := by omega
    have b : i ≠ 1 := by omega
    simp [clipped, a, b])
  refine ⟨?_, by simp [clipped], e2, ?_, ?_⟩
  · intro i
    unfold clipped
    split_ifs <;> simp
  · rw [e1, scan_init_zero, find_max_clipped]
  · rw [e1, scan_init_zero, find_max_clipped]

/-- The same defect on the recording `clipped_only`: the wrapped maximum is
replaced by the `0` of the second sample, and the function returns at line 220
with an empty peak list although the recording is not silent. -/
theorem clipped_only_no_peak :
    clipped_only 0 ≠ 0 ∧
    (analyze_recording id clipped_only 44100 (15 / 100) no_peaks).gPeakCount = 0 := by
  have h2 : find_max clipped_only 2 = (0, 1) := by
    simp [find_max, List.range_succ, clipped_only, wrap16]
  have h := find_max_stable clipped_only 2 44098 (by
    intro i h1 _
    rw [h2]
    have a : i ≠ 0 := by omega
    simp [clipped_only, a])
  rw [h2] at h
  refine ⟨by simp [clipped_only], ?_⟩
  rw [analyze_of_silent id clipped_only 44100 (15 / 100) no_peaks (by rw [h])]

theorem threshold_edge_echo : threshold_val id 1000 (15 / 100) ≤ 150 := by
  rw [threshold_val_eq id FloatRounding_id 1000 (15 / 100) (by norm_num) (by norm_num)
    (by norm_num) (by norm_num)]
  exact (truncQ_bounds _ 150 150 (by norm_num) (by norm_num)).2

theorem analyze_edge_echo :
    (analyze_recording id edge_echo 44100 (15 / 100) no_peaks).gPeakCount = 2 ∧
      ((analyze_recording id edge_echo 44100 (15 / 100) no_peaks).gDetectedPeaks 0).index = 0 ∧
      ((analyze_recording id edge_echo 44100 (15 / 100) no_peaks).gDetectedPeaks 1).index =
        3307 := by
  have hm : (find_max edge_echo 44100).1 ≠ 0 := by rw [find_max_edge_echo]; simp
  have hthr := threshold_edge_echo
  obtain ⟨e1, e2⟩ := analyze_double id edge_echo 44100 (15 / 100) no_peaks 3307 (by omega) hm
    (by rw [find_max_edge_echo]; simp [search_start_index, DEAD_ZONE_eq]) (by omega)
    (by
      rw [find_max_edge_echo]
      have h5 : |edge_echo 3307| = 500 := by simp [edge_echo]
      have h4 : |edge_echo (3307 - 1)| = 0 := by simp [edge_echo]
      have h6 : |edge_echo (3307 + 1)| = 0 := by simp [edge_echo]
      unfold is_echo_peak
      rw [h4, h5, h6]
      dsimp only
      omega)
    (by
      intro j h1 h2
      rw [find_max_edge_echo] at h1
      simp only [search_start_index, DEAD_ZONE_eq] at h1
      omega)
    (by
      intro j h1 _
      rw [COOLDOWN_eq] at h1
      apply not_peak_of_zero
      have a : j ≠ 0 := by omega
      have b : j ≠ 3307 := by omega
      simp [edge_echo, a, b])
  refine ⟨e2, ?_, ?_⟩
  · rw [e1, write_peak_ne id edge_echo _ 1 3307 0 (by omega), scan_init_zero, find_max_edge_echo]
  · rw [e1, write_peak_same id edge_echo _ 1 3307 (by omega)]

theorem search_start_index_ne (x : Nat) : search_start_index x ≠ x + 3308 := by
  unfold search_start_index
  rw [DEAD_ZONE_eq]
  omega

/-- C6 as stated fails: on `edge_echo` (pulse at index 0, echo at index 3307) the
scan starts at `0 + 3307`, not `0 + 3308`, and the echo at index 3307 is
reported, below `Peak0.index + 3308`. -/
theorem echo_below_3308 :
    search_start_index (find_max edge_echo 44100).2 ≠ (find_max edge_echo 44100).2 + 3308 ∧
    ¬ (∀ k, 1 ≤ k → k < (analyze_recording id edge_echo 44100 (15 / 100) no_peaks).gPeakCount →
      ((analyze_recording id edge_echo 44100 (15 / 100) no_peaks).gDetectedPeaks 0).index + 3308 ≤
        ((analyze_recording id edge_echo 44100 (15 / 100) no_peaks).gDetectedPeaks k).index) := by
  obtain ⟨a, b, c⟩ := analyze_edge_echo
  constructor
  · exact search_start_index_ne _
  · intro h
    have := h 1 (le_refl 1) (by rw [a]; omega)
    rw [b, c] at this
    omega

/-- Witness of C6 (amended): the echo of `two_spikes` lies beyond the dead zone. -/
theorem echo_after_dead_zone_witness :
    ((analyze_recording id two_spikes 44100 (15 / 100) no_peaks).gDetectedPeaks 0).index + 3307 ≤
      ((analyze_recording id two_spikes 44100 (15 / 100) no_peaks).gDetectedPeaks 1).index :=
  (echo_after_dead_zone id two_spikes 44100 (15 / 100) no_peaks).2 1 (le_refl 1)
    (by rw [(analyze_two_spikes id FloatRounding_id).1]; omega)

/-- The capture callback writes the buffer and the cursor only. -/
theorem callback_keeps (g : Globals) (stream : Nat → Nat) (len : Int) :
    (audio_recording_callback g stream len).gState = g.gState := by
  unfold audio_recording_callback
  by_cases h : g.gState ≠ AppState.STATE_RECORDING
  · rw [if_pos h]
  · rw [if_neg h]
    dsimp only
    repeat' split
    all_goals rfl

/-- C9: a start-test command (SPACE) in state Idle or Done yields state
Recording with every byte of the buffer zero (so every sample is zero), write
cursor 0, peak count 0 and the threshold as it was; in state Recording or
Analyzing it leaves the globals unchanged; and the only event that takes the
session out of Recording is the main-loop check with the buffer full. -/
theorem start_test_gate (rnd : ℚ → ℚ) (g : Globals) :
    ((g.gState = AppState.STATE_IDLE ∨ g.gState = AppState.STATE_DONE) →
      (handle_input rnd g Key.SDLK_SPACE).gState = AppState.STATE_RECORDING ∧
      (∀ a, a < RECORDING_BUFFER_SIZE →
        (handle_input rnd g Key.SDLK_SPACE).gRecordingBuffer a = 0) ∧
      (∀ i, i < AUDIO_FREQ * RECORDING_SECONDS →
        sampleAt (handle_input rnd g Key.SDLK_SPACE).gRecordingBuffer i = 0) ∧
      (handle_input rnd g Key.SDLK_SPACE).gBufferPosition = 0 ∧
      (handle_input rnd g Key.SDLK_SPACE).gPeakCount = 0 ∧
      (handle_input rnd g Key.SDLK_SPACE).gDetectionThreshold = g.gDetectionThreshold) ∧
    ((g.gState = AppState.STATE_RECORDING ∨ g.gState = AppState.STATE_ANALYZING) →
      handle_input rnd g Key.SDLK_SPACE = g) ∧
    (∀ e, g.gState = AppState.STATE_RECORDING →
      (step rnd g e).gState ≠ AppState.STATE_RECORDING →
      e = Event.tick ∧ toSizeT g.gBufferPosition ≥ (RECORDING_BUFFER_SIZE : Int)) := by
  refine ⟨?_, ?_, ?_⟩
  · intro h
    have e : handle_input rnd g Key.SDLK_SPACE = start_test g := by
      simp [handle_input, h]
    rw [e]
    refine ⟨rfl, ?_, ?_, rfl, rfl, rfl⟩
    · intro a ha
      simp [start_test, memset_zero, ha]
    · intro i hi
      have h1 : 2 * i < RECORDING_BUFFER_SIZE := by
        unfold RECORDING_BUFFER_SIZE SIZEOF_SINT16
        omega
      have h2 : 2 * i + 1 < RECORDING_BUFFER_SIZE := by
        unfold RECORDING_BUFFER_SIZE SIZEOF_SINT16
        omega
      simp [start_test, memset_zero, sampleAt, h1, h2, wrap16]
  · intro h
    rcases h with h | h <;> simp [handle_input, h]
  · intro e hs hne
    cases e with
    | key k =>
      exfalso
      apply hne
      cases k <;> simp [step, handle_input, hs]
    | audio stream len =>
      exfalso
      apply hne
      simp only [step]
      rw [callback_keeps]
      exact hs
    | tick =>
      refine ⟨rfl, ?_⟩
      by_contra hc
      apply hne
      simp [step, main_loop_tick, hs, hc]

/-! ## The capture callback -/

/-- The callback in state Recording, with an even cursor inside the buffer and a
non-negative length: `min len (88200 - cursor)` bytes are copied to the cursor
and the cursor advances by as many. -/
theorem callback_spec (g : Globals) (stream : Nat → Nat) (len : Int)
    (hs : g.gState = AppState.STATE_RECORDING) (hp0 : 0 ≤ g.gBufferPosition)
    (hp1 : g.gBufferPosition ≤ 88200) (hev : g.gBufferPosition % 2 = 0)
    (hl0 : 0 ≤ len) (hl1 : len ≤ 2147483647) :
    audio_recording_callback g stream len =
      { g with
        gRecordingBuffer := memcpy g.gRecordingBuffer g.gBufferPosition.toNat stream
          (min len (88200 - g.gBufferPosition)).toNat
        gBufferPosition := g.gBufferPosition + min len (88200 - g.gBufferPosition) } := by
  have hRB : (RECORDING_BUFFER_SIZE : Int) = 88200 := by
    simp [RECORDING_BUFFER_SIZE, AUDIO_FREQ, RECORDING_SECONDS, SIZEOF_SINT16]
  have hS : (SIZEOF_SINT16 : Int) = 2 := by simp [SIZEOF_SINT16]
  have h1 : toSizeT g.gBufferPosition = g.gBufferPosition := by unfold toSizeT; omega
  have h2 : toSizeT (88200 - g.gBufferPosition) = 88200 - g.gBufferPosition := by
    unfold toSizeT; omega
  have h3 : toSizeT len = len := by unfold toSizeT; omega
  have hoff : SIZEOF_SINT16 * (g.gBufferPosition / 2).toNat = g.gBufferPosition.toNat := by
    unfold SIZEOF_SINT16; omega
  have hcopy : wrap32 (if len > 88200 - g.gBufferPosition then 88200 - g.gBufferPosition
      else len) = min len (88200 - g.gBufferPosition) := by
    split
    · rw [min_eq_right (by omega)]
      unfold wrap32
      omega
    · rw [min_eq_left (by omega)]
      unfold wrap32
      omega
  unfold audio_recording_callback
  rw [if_neg (by simp [hs])]
  simp only [hRB, hS, h1, h2, h3, hoff, hcopy]
  by_cases hpos : min len (88200 - g.gBufferPosition) > 0
  · rw [if_pos hpos]
    have h5 : wrap32 (g.gBufferPosition + min len (88200 - g.gBufferPosition)) =
        g.gBufferPosition + min len (88200 - g.gBufferPosition) := by
      unfold wrap32
      omega
    rw [h5]
  · rw [if_neg hpos]
    have h0 : min len (88200 - g.gBufferPosition) = 0 := by omega
    rw [h0]
    have hm : memcpy g.gRecordingBuffer g.gBufferPosition.toNat stream (0 : Int).toNat =
        g.gRecordingBuffer := by
      funext a
      simp [memcpy]
    rw [hm]
    simp

theorem run_callbacks_spec (cbs : List ((Nat → Nat) × Int)) :
    ∀ g : Globals, g.gState = AppState.STATE_RECORDING → 0 ≤ g.gBufferPosition →
      g.gBufferPosition ≤ 88200 → g.gBufferPosition % 2 = 0 →
      (∀ c ∈ cbs, 0 ≤ c.2 ∧ c.2 % 2 = 0 ∧ c.2 ≤ 2147483647) →
      (run_callbacks g cbs).gState = AppState.STATE_RECORDING ∧
      (run_callbacks g cbs).gBufferPosition =
        min (g.gBufferPosition + (cbs.map Prod.snd).sum) 88200 ∧
      (run_callbacks g cbs).gBufferPosition % 2 = 0 ∧
      0 ≤ (cbs.map Prod.snd).sum ∧
      (∀ a, 88200 ≤ a → (run_callbacks g cbs).gRecordingBuffer a = g.gRecordingBuffer a) := by
  induction cbs with
  | nil =>
    intro g hs h0 h1 h2 _
    simp only [run_callbacks, List.map_nil, List.sum_nil]
    refine ⟨hs, by omega, h2, le_refl _, fun _ _ => trivial⟩
  | cons c rest ih =>
    intro g hs h0 h1 h2 hl
    obtain ⟨c0, c1, c2⟩ := hl c (List.mem_cons_self _ _)
    have hspec := callback_spec g c.1 c.2 hs h0 h1 h2 c0 c2
    have hrest := ih (audio_recording_callback g c.1 c.2) (by rw [callback_keeps]; exact hs)
      (by rw [hspec]; simp only; omega) (by rw [hspec]; simp only; omega)
      (by rw [hspec]; simp only; omega) (fun d hd => hl d (List.mem_cons_of_mem _ hd))
    obtain ⟨r1, r2, r3, r4, r5⟩ := hrest
    simp only [run_callbacks, List.map_cons, List.sum_cons]
    refine ⟨r1, ?_, r3, by omega, ?_⟩
    · rw [r2, hspec]
      simp only
      omega
    · intro a ha
      rw [r5 a ha, hspec]
      simp only [memcpy]
      rw [if_neg]
      omega

/-- C5: from a state with session state Recording and write cursor 0, after any
sequence of capture callbacks with non-negative, sample-aligned lengths: the
session is still Recording, the cursor lies in `[0, capacity]` and equals
`min (total length delivered) capacity` (so it is exactly the capacity once the
total exceeds it), no byte at or beyond the capacity has been written, and one
more callback copies exactly `min len (capacity - cursor)` bytes of its stream
to the cursor, advances the cursor by as many and leaves every other byte, in
particular every sample before the old cursor, unchanged. -/
theorem capture_appends (g0 : Globals) (cbs : List ((Nat → Nat) × Int))
    (hs : g0.gState = AppState.STATE_RECORDING) (hp : g0.gBufferPosition = 0)
    (hlen : ∀ c ∈ cbs, 0 ≤ c.2 ∧ c.2 % 2 = 0 ∧ c.2 ≤ 2147483647) :
    (run_callbacks g0 cbs).gState = AppState.STATE_RECORDING ∧
    0 ≤ (run_callbacks g0 cbs).gBufferPosition ∧
    (run_callbacks g0 cbs).gBufferPosition ≤ (RECORDING_BUFFER_SIZE : Int) ∧
    (run_callbacks g0 cbs).gBufferPosition =
      min (cbs.map Prod.snd).sum (RECORDING_BUFFER_SIZE : Int) ∧
    ((RECORDING_BUFFER_SIZE : Int) < (cbs.map Prod.snd).sum →
      (run_callbacks g0 cbs).gBufferPosition = (RECORDING_BUFFER_SIZE : Int)) ∧
    (∀ a, RECORDING_BUFFER_SIZE ≤ a →
      (run_callbacks g0 cbs).gRecordingBuffer a = g0.gRecordingBuffer a) ∧
    (∀ (stream : Nat → Nat) (len : Int), 0 ≤ len → len % 2 = 0 → len ≤ 2147483647 →
      (audio_recording_callback (run_callbacks g0 cbs) stream len).gBufferPosition =
        (run_callbacks g0 cbs).gBufferPosition +
          min len ((RECORDING_BUFFER_SIZE : Int) - (run_callbacks g0 cbs).gBufferPosition) ∧
      (∀ j : Nat,
        (j : Int) < min len ((RECORDING_BUFFER_SIZE : Int) - (run_callbacks g0 cbs).gBufferPosition) →
        (audio_recording_callback (run_callbacks g0 cbs) stream len).gRecordingBuffer
          ((run_callbacks g0 cbs).gBufferPosition.toNat + j) = stream j) ∧
      (∀ a : Nat, (a : Int) < (run_callbacks g0 cbs).gBufferPosition →
        (audio_recording_callback (run_callbacks g0 cbs) stream len).gRecordingBuffer a =
          (run_callbacks g0 cbs).gRecordingBuffer a) ∧
      (∀ a : Nat,
        (run_callbacks g0 cbs).gBufferPosition +
          min len ((RECORDING_BUFFER_SIZE : Int) - (run_callbacks g0 cbs).gBufferPosition) ≤ (a : Int) →
        (audio_recording_callback (run_callbacks g0 cbs) stream len).gRecordingBuffer a =
          (run_callbacks g0 cbs).gRecordingBuffer a) ∧
      (∀ i : Nat, 2 * (i : Int) + 1 < (run_callbacks g0 cbs).gBufferPosition →
        sampleAt (audio_recording_callback (run_callbacks g0 cbs) stream len).gRecordingBuffer i =
          sampleAt (run_callbacks g0 cbs).gRecordingBuffer i)) := by
  have hRB : (RECORDING_BUFFER_SIZE : Int) = 88200 := by
    simp [RECORDING_BUFFER_SIZE, AUDIO_FREQ, RECORDING_SECONDS, SIZEOF_SINT16]
  have hRN : RECORDING_BUFFER_SIZE = 88200 := by
    simp [RECORDING_BUFFER_SIZE, AUDIO_FREQ, RECORDING_SECONDS, SIZEOF_SINT16]
  obtain ⟨r1, r2, r3, r4, r5⟩ := run_callbacks_spec cbs g0 hs (by omega) (by omega) (by omega) hlen
  rw [hp, zero_add] at r2
  rw [hRB, hRN]
  refine ⟨r1, by omega, by omega, r2, by omega, r5, ?_⟩
  intro stream len hl0 hl1 hl2
  have hspec := callback_spec (run_callbacks g0 cbs) stream len r1 (by omega) (by omega) r3 hl0 hl2
  have hmem : ∀ a : Nat, ((a : Int) < (run_callbacks g0 cbs).gBufferPosition ∨
      (run_callbacks g0 cbs).gBufferPosition +
        min len (88200 - (run_callbacks g0 cbs).gBufferPosition) ≤ (a : Int)) →
      (audio_recording_callback (run_callbacks g0 cbs) stream len).gRecordingBuffer a =
        (run_callbacks g0 cbs).gRecordingBuffer a := by
    intro a ha
    rw [hspec]
    simp only [memcpy]
    rw [if_neg]
    omega
  refine ⟨by rw [hspec], ?_, fun a ha => hmem a (Or.inl ha), fun a ha => hmem a (Or.inr ha), ?_⟩
  · intro j hj
    rw [hspec]
    simp only [memcpy]
    rw [if_pos (by omega)]
    congr 1
    omega
  · intro i hi
    unfold sampleAt
    rw [hmem (2 * i) (Or.inl (by omega)), hmem (2 * i + 1) (Or.inl (by omega))]

/-- Witness of C5: after SPACE at program start, a callback of 4096 bytes and one
of 88200 bytes leave the cursor at the capacity. -/
theorem capture_appends_witness :
    (start_test (initial id (fun _ => 0))).gState = AppState.STATE_RECORDING ∧
    (start_test (initial id (fun _ => 0))).gBufferPosition = 0 ∧
    (run_callbacks (start_test (initial id (fun _ => 0)))
      [(two_spikes_bytes, 4096), (two_spikes_bytes, 88200)]).gBufferPosition =
        (RECORDING_BUFFER_SIZE : Int) :=
  ⟨rfl, rfl,
    (capture_appends (start_test (initial id (fun _ => 0)))
      [(two_spikes_bytes, 4096), (two_spikes_bytes, 88200)] rfl rfl
      (by
        intro c hc
        simp only [List.mem_cons, List.mem_singleton, List.not_mem_nil, or_false] at hc
        rcases hc with rfl | rfl <;> simp)).2.2.2.2.1
      (by simp [RECORDING_BUFFER_SIZE, AUDIO_FREQ, RECORDING_SECONDS, SIZEOF_SINT16])⟩

/-! ## Times and distances in every reachable state -/

theorem PeaksOK_zero (rnd : ℚ → ℚ) (peaks : Nat → AudioPeak) (count : Nat)
    (h : PeaksOK rnd peaks count) : PeaksOK rnd peaks 0 :=
  ⟨h.1, h.2.1, fun k h1 h2 => absurd h2 (by omega)⟩

theorem analyze_PeaksOK (rnd : ℚ → ℚ) (buf : Nat → Int) (n : Nat) (t : ℚ)
    (peaks : Nat → AudioPeak) (h1 : (peaks 0).time_s = 0) (h2 : (peaks 0).distance_m = 0) :
    PeaksOK rnd (analyze_recording rnd buf n t peaks).gDetectedPeaks
      (analyze_recording rnd buf n t peaks).gPeakCount := by
  rcases analyze_cases rnd buf n t peaks with ⟨_, hres⟩ | ⟨_, _, st, hinv, _, hres⟩
  · rw [hres]
    exact ⟨h1, h2, fun k a b => absurd b (by simp only; omega)⟩
  · rw [hres]
    obtain ⟨_, _, _, hsame, hslots, _⟩ := hinv
    have h0 : st.peaks 0 = (scan_init buf n peaks).peaks 0 := hsame 0 (Or.inl rfl)
    refine ⟨?_, ?_, ?_⟩
    · simp only
      rw [h0, scan_init_zero]
      exact h1
    · simp only
      rw [h0, scan_init_zero]
      exact h2
    · intro k hk1 hk2
      simp only at hk2 ⊢
      obtain ⟨_, _, _, _, _, a6, a7⟩ := hslots k hk1 hk2
      rw [h0]
      exact ⟨a6, a7⟩

theorem run_analyze_PeaksOK (rnd : ℚ → ℚ) (g : Globals)
    (h1 : (g.gDetectedPeaks 0).time_s = 0) (h2 : (g.gDetectedPeaks 0).distance_m = 0) :
    PeaksOK rnd (run_analyze_recording rnd g).gDetectedPeaks
      (run_analyze_recording rnd g).gPeakCount :=
  analyze_PeaksOK rnd _ _ _ _ h1 h2

theorem callback_keeps_peaks (g : Globals) (stream : Nat → Nat) (len : Int) :
    (audio_recording_callback g stream len).gDetectedPeaks = g.gDetectedPeaks ∧
      (audio_recording_callback g stream len).gPeakCount = g.gPeakCount := by
  unfold audio_recording_callback
  by_cases h : g.gState ≠ AppState.STATE_RECORDING
  · rw [if_pos h]
    exact ⟨rfl, rfl⟩
  · rw [if_neg h]
    dsimp only
    repeat' split
    all_goals exact ⟨rfl, rfl⟩

theorem step_PeaksOK (rnd : ℚ → ℚ) (g : Globals) (e : Event)
    (h : PeaksOK rnd g.gDetectedPeaks g.gPeakCount) :
    PeaksOK rnd (step rnd g e).gDetectedPeaks (step rnd g e).gPeakCount := by
  cases e with
  | key k =>
    cases k with
    | SDLK_SPACE =>
      simp only [step, handle_input]
      split
      · exact PeaksOK_zero rnd _ _ h
      · exact h
    | SDLK_UP =>
      simp only [step, handle_input]
      split
      · exact run_analyze_PeaksOK rnd _ h.1 h.2.1
      · exact h
    | SDLK_DOWN =>
      simp only [step, handle_input]
      split
      · exact run_analyze_PeaksOK rnd _ h.1 h.2.1
      · exact h
    | other => exact h
  | audio stream len =>
    simp only [step]
    rw [(callback_keeps_peaks g stream len).1, (callback_keeps_peaks g stream len).2]
    exact h
  | tick =>
    simp only [step, main_loop_tick]
    split
    · exact run_analyze_PeaksOK rnd _ h.1 h.2.1
    · exact h

theorem reachable_PeaksOK (rnd : ℚ → ℚ) (g : Globals) (h : Reachable rnd g) :
    PeaksOK rnd g.gDetectedPeaks g.gPeakCount := by
  induction h with
  | init mem => exact ⟨rfl, rfl, fun k a b => absurd b (by simp [initial])⟩
  | next g e _ ih => exact step_PeaksOK rnd g e ih

/-- C4 (amended): in every reachable state, Peak #0 has `time_s = 0` and
`distance_m = 0`, and every listed peak `1 ≤ k < gPeakCount` has
`time_s = fl (fl (index_k - index_0) / 44100)` and
`distance_m = fl (fl (time_s * 343) / 2)`, where `fl` is the rounding `rnd` of
each `float` operation of lines 242-243. -/
theorem peak_time_and_distance (rnd : ℚ → ℚ) (g : Globals) (hr : Reachable rnd g) (k : Nat)
    (hk : k < g.gPeakCount) :
    (k = 0 → (g.gDetectedPeaks k).time_s = 0 ∧ (g.gDetectedPeaks k).distance_m = 0) ∧
    (1 ≤ k →
      (g.gDetectedPeaks k).time_s =
        rnd (rnd (((((g.gDetectedPeaks k).index : Int) -
          ((g.gDetectedPeaks 0).index : Int) : Int) : ℚ)) / 44100) ∧
      (g.gDetectedPeaks k).distance_m =
        rnd (rnd ((g.gDetectedPeaks k).time_s * 343) / 2)) := by
  obtain ⟨z1, z2, hs⟩ := reachable_PeaksOK rnd g hr
  have hF : (AUDIO_FREQ : ℚ) = 44100 := by simp [AUDIO_FREQ]
  have hV : SPEED_OF_SOUND = 343 := rfl
  refine ⟨?_, ?_⟩
  · rintro rfl
    exact ⟨z1, z2⟩
  · intro hk1
    have := hs k hk1 hk
    rw [hF, hV] at this
    exact this

/-- If no `float` operation rounded (`rnd x = x`), every listed peak of a
reachable state, Peak #0 included, would satisfy the equations without
rounding. -/
theorem peak_time_and_distance_unrounded (rnd : ℚ → ℚ) (hex : ∀ x, rnd x = x) (g : Globals)
    (hr : Reachable rnd g) (k : Nat) (hk : k < g.gPeakCount) :
    (g.gDetectedPeaks k).time_s =
      (((g.gDetectedPeaks k).index : ℚ) - ((g.gDetectedPeaks 0).index : ℚ)) / 44100 ∧
    (g.gDetectedPeaks k).distance_m = ((g.gDetectedPeaks k).time_s * 343) / 2 := by
  obtain ⟨z1, z2, hs⟩ := reachable_PeaksOK rnd g hr
  have hF : (AUDIO_FREQ : ℚ) = 44100 := by simp [AUDIO_FREQ]
  have hV : SPEED_OF_SOUND = 343 := rfl
  rcases Nat.eq_zero_or_pos k with rfl | hk1
  · rw [z1, z2]
    simp
  · have := hs k hk1 hk
    rw [hF, hV, hex, hex, hex, hex] at this
    obtain ⟨a, b⟩ := this
    refine ⟨?_, b⟩
    rw [a]
    push_cast
    rfl

/-! ### A recorded session -/

theorem demo_recorded_eq :
    demo_recorded =
      { gState := AppState.STATE_RECORDING
        gRecordingBuffer := memcpy (memset_zero (fun _ => 0) RECORDING_BUFFER_SIZE) 0
          two_spikes_bytes 88200
        gBufferPosition := 88200
        gDetectedPeaks := no_peaks
        gPeakCount := 0
        gDetectionThreshold := round32 (15 / 100) } := by
  have h1 : step round32 (initial round32 (fun _ => 0)) (Event.key Key.SDLK_SPACE) =
      start_test (initial round32 (fun _ => 0)) := by
    simp [step, handle_input, initial]
  unfold demo_recorded
  rw [h1]
  simp only [step]
  rw [callback_spec _ two_spikes_bytes 88200 rfl (by simp [start_test]) (by simp [start_test])
    (by simp [start_test]) (by norm_num) (by norm_num)]
  simp [start_test, initial]
  rfl

theorem demo_samples :
    sampleAt (memcpy (memset_zero (fun _ => 0) RECORDING_BUFFER_SIZE) 0 two_spikes_bytes 88200) =
      two_spikes := by
  funext i
  unfold sampleAt
  by_cases h1 : i = 1000
  · subst h1
    simp [memcpy, two_spikes_bytes, two_spikes, wrap16]
  · by_cases h5 : i = 5000
    · subst h5
      simp [memcpy, two_spikes_bytes, two_spikes, wrap16]
    · have a1 : 2 * i ≠ 2000 := by omega
      have a2 : 2 * i ≠ 2001 := by omega
      have a3 : 2 * i ≠ 10000 := by omega
      have a4 : 2 * i ≠ 10001 := by omega
      have b1 : 2 * i + 1 ≠ 2000 := by omega
      have b2 : 2 * i + 1 ≠ 2001 := by omega
      have b3 : 2 * i + 1 ≠ 10000 := by omega
      have b4 : 2 * i + 1 ≠ 10001 := by omega
      have e0 : memcpy (memset_zero (fun _ => 0) RECORDING_BUFFER_SIZE) 0 two_spikes_bytes 88200
          (2 * i) = 0 := by
        simp only [memcpy, memset_zero, two_spikes_bytes, Nat.sub_zero]
        split_ifs <;> rfl
      have e1 : memcpy (memset_zero (fun _ => 0) RECORDING_BUFFER_SIZE) 0 two_spikes_bytes 88200
          (2 * i + 1) = 0 := by
        simp only [memcpy, memset_zero, two_spikes_bytes, Nat.sub_zero]
        split_ifs <;> rfl
      rw [e0, e1]
      simp [two_spikes, h1, h5, wrap16]

theorem tick_of_full (rnd : ℚ → ℚ) (g : Globals) (hs : g.gState = AppState.STATE_RECORDING)
    (hp : toSizeT g.gBufferPosition ≥ (RECORDING_BUFFER_SIZE : Int)) :
    main_loop_tick rnd g =
      { run_analyze_recording rnd { g with gState := AppState.STATE_ANALYZING } with
        gState := AppState.STATE_DONE } := by
  unfold main_loop_tick
  rw [if_pos ⟨hs, hp⟩]

/-- What the main-loop check leaves in the peak array when the buffer is full. -/
theorem tick_result (rnd : ℚ → ℚ) (g : Globals) (hs : g.gState = AppState.STATE_RECORDING)
    (hp : toSizeT g.gBufferPosition ≥ (RECORDING_BUFFER_SIZE : Int)) :
    (main_loop_tick rnd g).gDetectedPeaks =
        (analyze_recording rnd (sampleAt g.gRecordingBuffer)
          (total_samples_of g.gBufferPosition) g.gDetectionThreshold
          g.gDetectedPeaks).gDetectedPeaks ∧
      (main_loop_tick rnd g).gPeakCount =
        (analyze_recording rnd (sampleAt g.gRecordingBuffer)
          (total_samples_of g.gBufferPosition) g.gDetectionThreshold
          g.gDetectedPeaks).gPeakCount := by
  rw [tick_of_full rnd g hs hp]
  exact ⟨rfl, rfl⟩

theorem demo_recorded_fields :
    demo_recorded.gState = AppState.STATE_RECORDING ∧
      demo_recorded.gBufferPosition = 88200 ∧
      sampleAt demo_recorded.gRecordingBuffer = two_spikes ∧
      demo_recorded.gDetectedPeaks = no_peaks ∧
      demo_recorded.gDetectionThreshold = round32 (15 / 100) := by
  rw [demo_recorded_eq]
  exact ⟨rfl, rfl, demo_samples, rfl, rfl⟩

theorem demo_session_peaks :
    demo_session.gDetectedPeaks =
        (analyze_recording round32 two_spikes 44100 (round32 (15 / 100))
          no_peaks).gDetectedPeaks ∧
      demo_session.gPeakCount =
        (analyze_recording round32 two_spikes 44100 (round32 (15 / 100)) no_peaks).gPeakCount := by
  have hT : total_samples_of 88200 = 44100 := by
    unfold total_samples_of SIZEOF_SINT16
    rfl
  have hc : toSizeT 88200 ≥ (RECORDING_BUFFER_SIZE : Int) := by
    simp [toSizeT, RECORDING_BUFFER_SIZE, AUDIO_FREQ, RECORDING_SECONDS, SIZEOF_SINT16]
  obtain ⟨f1, f2, f3, f4, f5⟩ := demo_recorded_fields
  have h := tick_result round32 demo_recorded f1 (by rw [f2]; exact hc)
  rw [f2, f3, f4, f5, hT] at h
  exact h

theorem demo_session_reachable : Reachable round32 demo_session :=
  Reachable.next _ _ (Reachable.next _ _ (Reachable.next _ _ (Reachable.init _)))

/-- The peak list of `demo_session`: the threshold is `0.15f`, the pulse is at
index 1000 and the echo at index 5000, with the binary32 time
`1521743 / 16777216` and distance `16311183 / 1048576`. -/
theorem demo_session_values :
    demo_session.gPeakCount = 2 ∧
    (demo_session.gDetectedPeaks 0).index = 1000 ∧
    (demo_session.gDetectedPeaks 1).index = 5000 ∧
    (demo_session.gDetectedPeaks 1).time_s = 1521743 / 16777216 ∧
    (demo_session.gDetectedPeaks 1).distance_m = 16311183 / 1048576 := by
  obtain ⟨p, c⟩ := demo_session_peaks
  obtain ⟨a1, a2, a3, _, a5, a6⟩ := analyze_two_spikes_at round32 FloatRounding_round32
    (round32 (15 / 100)) (by rw [round32_threshold]; norm_num)
    (by rw [round32_threshold]; norm_num)
  rw [p, c]
  refine ⟨a1, by rw [a2], a3, ?_, ?_⟩
  · rw [a5, round32_time]
  · rw [a6, round32_time, round32_distance]

/-- C4 as stated fails: in the reachable state `demo_session` the listed echo
(Peak #1, index 5000, with Peak #0 at index 1000) has
`time_s = 1521743 / 16777216`, which is not `(5000 - 1000) / 44100`, and
`distance_m = 16311183 / 1048576`, which is not `(time_s * 343) / 2`. -/
theorem echo_time_is_rounded :
    Reachable round32 demo_session ∧ 1 < demo_session.gPeakCount ∧
    (demo_session.gDetectedPeaks 1).time_s ≠
      (((demo_session.gDetectedPeaks 1).index : ℚ) -
        ((demo_session.gDetectedPeaks 0).index : ℚ)) / 44100 ∧
    (demo_session.gDetectedPeaks 1).distance_m ≠
      ((demo_session.gDetectedPeaks 1).time_s * 343) / 2 := by
  obtain ⟨c, i0, i1, t, d⟩ := demo_session_values
  refine ⟨demo_session_reachable, by rw [c]; omega, ?_, ?_⟩
  · rw [t, i0, i1]
    norm_num
  · rw [t, d]
    norm_num

/-- Witness of C4 (amended): the echo of the session `demo_session`, recorded
and analysed with binary32 arithmetic. -/
theorem peak_time_and_distance_witness :
    Reachable round32 demo_session ∧ 1 < demo_session.gPeakCount ∧
    (demo_session.gDetectedPeaks 1).time_s =
      round32 (round32 (((((demo_session.gDetectedPeaks 1).index : Int) -
        ((demo_session.gDetectedPeaks 0).index : Int) : Int) : ℚ)) / 44100) ∧
    (demo_session.gDetectedPeaks 1).distance_m =
      round32 (round32 ((demo_session.gDetectedPeaks 1).time_s * 343) / 2) :=
  ⟨demo_session_reachable, by rw [demo_session_values.1]; omega,
    (peak_time_and_distance round32 demo_session demo_session_reachable 1
      (by rw [demo_session_values.1]; omega)).2 (le_refl 1)⟩

end Echolocator
